import Mathlib

/-!
Shallow embedding of the grocy-ourgroceries reconciliation engine
(src/sync/item_matcher.py, src/sync/quantity_formatter.py,
src/sync/deletion_manager.py, src/sync/sync_manager.py,
src/utils/tracking.py) together with proofs about its behaviour.

Python strings are modelled by Lean `String` (the claims only exercise
ASCII data; Python `str.lower` is modelled by `String.toLower` and
`str.strip` by `String.trim`).  Python dict lookups are modelled by
association lists, absent keys by `Option`, and a raised exception by
`Except.error`.  Machine floats are modelled by `ℚ`: the code only
multiplies, divides and rounds to two decimals, and no claim depends on
binary-float artifacts.
-/

namespace GrocySync

/-- First occurrence of the pattern `sep` in the character list `l`:
returns the text before the occurrence and the text after it, or `none`
when the pattern is absent.  This grounds Python substring search as used
by membership tests and by the expressions a.split(sep)[0] and
a.split(sep, 1)[1] in src/sync/item_matcher.py. -/
def splitFirstAux (sep : List Char) : List Char → Option (List Char × List Char)
  | [] => none
  | c :: rest =>
    if sep.isPrefixOf (c :: rest) then some ([], (c :: rest).drop sep.length)
    else
      match splitFirstAux sep rest with
      | some (b, a) => some (c :: b, a)
      | none => none

/-- Python substring membership (the expression sub in s for strings);
the empty string is a substring of everything in Python. -/
def strContains (s sub : String) : Bool :=
  if sub = "" then true else (splitFirstAux sub.toList s.toList).isSome

/-- Python s.split(sep)[0] for a separator occurring in s (identity when
the separator is absent; Python raises on an empty separator, which the
callers below never pass at the points the claims exercise). -/
def beforeFirst (sep s : String) : String :=
  match splitFirstAux sep.toList s.toList with
  | some (b, _) => String.mk b
  | none => s

/-- Python s.split(sep, 1)[1]: the text after the first occurrence of
the separator (identity when the separator is absent). -/
def afterFirst (sep s : String) : String :=
  match splitFirstAux sep.toList s.toList with
  | some (_, a) => String.mk a
  | none => s

/-- Python s.replace(' ', ''). -/
def removeSpaces (s : String) : String :=
  String.mk (s.toList.filter (fun c => c ≠ ' '))

/-- Python str.lower, character by character (the claims only exercise
characters where CPython case-folding agrees with Char.toLower). -/
def pyLower (s : String) : String :=
  String.mk (s.data.map Char.toLower)

/-- Python str.strip: drop leading and trailing whitespace. -/
def pyStrip (s : String) : String :=
  String.mk
    (List.reverse ((List.reverse (s.data.dropWhile Char.isWhitespace)).dropWhile
      Char.isWhitespace))

/-- Python str.endswith. -/
def pyEndsWith (s sfx : String) : Bool :=
  sfx.data.isSuffixOf s.data

/-- Leftmost match of the regular expression pattern used by
ItemMatcher.extract_existing_quantity for the legacy format: a
parenthesis-free group between one ( and the following ), the group
being nonempty.  Returns the group's characters. -/
def firstParenGroup : List Char → Option (List Char)
  | [] => none
  | c :: rest =>
    if c = '(' then
      let content := rest.takeWhile (fun d => d ≠ '(' ∧ d ≠ ')')
      match rest.drop content.length with
      | ')' :: _ => if content ≠ [] then some content else firstParenGroup rest
      | _ => firstParenGroup rest
    else firstParenGroup rest

/-- Python dict lookup in a string-keyed mapping (src uses plain dicts). -/
def lookupStr (m : List (String × String)) (k : String) : Option String :=
  match m.find? (fun p => p.1 == k) with
  | some p => some p.2
  | none => none

/-- A mirror (OurGroceries) item: Python dicts carrying optional id and
value keys and a crossedOff flag that defaults to False
(og_item.get with key crossedOff in src/sync/deletion_manager.py). -/
structure OGItem where
  id : Option String
  value : Option String
  crossedOff : Bool
deriving DecidableEq, Repr

/-- ItemMatcher from src/sync/item_matcher.py. -/
structure ItemMatcher where
  name_mappings : List (String × String)
  quantity_separator : String

/-- ItemMatcher.map_item_name: configured override, identity fallback. -/
def ItemMatcher.map_item_name (im : ItemMatcher) (grocy_name : String) : String :=
  match lookupStr im.name_mappings grocy_name with
  | some v => v
  | none => grocy_name

/-- ItemMatcher.extract_base_name: lower-case the value, then take the
text before the first separator occurrence (trimmed), else before the
first ( for the legacy format, else the whole lower-cased value. -/
def ItemMatcher.extract_base_name (im : ItemMatcher) (item_value : String) : String :=
  let item_lower := pyLower item_value
  if strContains item_lower im.quantity_separator then
    pyStrip (beforeFirst im.quantity_separator item_lower)
  else if strContains item_lower "(" then
    pyStrip (beforeFirst "(" item_lower)
  else item_lower

/-- ItemMatcher.find_matching_item: first mirror item carrying both id
and value whose extracted base name equals the lower-cased mapped name. -/
def ItemMatcher.find_matching_item (im : ItemMatcher) (grocy_name : String) :
    List OGItem → Option OGItem
  | [] => none
  | og_item :: rest =>
    match og_item.value, og_item.id with
    | some v, some _ =>
      if pyLower (im.map_item_name grocy_name) = im.extract_base_name v then some og_item
      else im.find_matching_item grocy_name rest
    | _, _ => im.find_matching_item grocy_name rest

/-- ItemMatcher.extract_existing_quantity: text after the first
separator occurrence when the separator is present in the raw value,
else the legacy parenthetical extraction, else none. -/
def ItemMatcher.extract_existing_quantity (im : ItemMatcher) (item : OGItem) :
    Option String :=
  match item.value with
  | none => none
  | some v =>
    if strContains v im.quantity_separator then
      some (afterFirst im.quantity_separator v)
    else
      match firstParenGroup v.toList with
      | some g => some (String.mk g)
      | none => none

/-- The normalization expression of has_quantity_changed (lines 135-136
of src/sync/item_matcher.py): lower-case and strip spaces, with falsy
values — None and the empty string — normalizing to the empty string. -/
def pyNormalize : Option String → String
  | some s => if s ≠ "" then removeSpaces (pyLower s) else ""
  | none => ""

/-- ItemMatcher.has_quantity_changed: exact equality (with Python's
None-differs-from-every-string semantics) short-circuits to unchanged;
otherwise compare after lower-casing and removing spaces, empty or
missing values normalizing to the empty string. -/
def ItemMatcher.has_quantity_changed (_im : ItemMatcher)
    (existing_quantity : Option String) (new_quantity : String) : Bool :=
  if existing_quantity ≠ some new_quantity then
    if pyNormalize existing_quantity = pyNormalize (some new_quantity) then false else true
  else false

/-! ## Tracking ledger (src/utils/tracking.py) -/

/-- SyncTracker's in-memory tracking data: the "lists" mapping from list
id to the list of engine-owned item ids (a JSON object; keys unique). -/
structure SyncTracker where
  lists : List (String × List String)
deriving DecidableEq, Repr

/-- Python dict lookup on the tracking data. -/
def getList : List (String × List String) → String → Option (List String)
  | [], _ => none
  | (k, v) :: rest, list_id => if k = list_id then some v else getList rest list_id

/-- Python dict assignment on the tracking data (first key wins, as keys
are unique). -/
def setList : List (String × List String) → String → List String → List (String × List String)
  | [], list_id, ids => [(list_id, ids)]
  | (k, v) :: rest, list_id, ids =>
    if k = list_id then (k, ids) :: rest else (k, v) :: setList rest list_id ids

/-- SyncTracker.is_tracked_item. -/
def SyncTracker.is_tracked_item (t : SyncTracker) (list_id item_id : String) : Bool :=
  match getList t.lists list_id with
  | some ids => ids.contains item_id
  | none => false

/-- SyncTracker.track_item: create the per-list entry when absent, then
append the id and persist only when the id is not already present.  The
returned flag records whether _save_tracking_data was invoked. -/
def SyncTracker.track_item (t : SyncTracker) (list_id item_id : String)
    (_item_name : String) : SyncTracker × Bool :=
  let t1 : SyncTracker :=
    match getList t.lists list_id with
    | some _ => t
    | none => ⟨t.lists ++ [(list_id, [])]⟩
  let ids := (getList t1.lists list_id).getD []
  if ids.contains item_id then (t1, false)
  else (⟨setList t1.lists list_id (ids ++ [item_id])⟩, true)

/-- SyncTracker.remove_tracking: list.remove drops the first occurrence;
persists only when the id was present.  The flag records a write. -/
def SyncTracker.remove_tracking (t : SyncTracker) (list_id item_id : String) :
    SyncTracker × Bool :=
  match getList t.lists list_id with
  | some ids =>
    if ids.contains item_id then (⟨setList t.lists list_id (ids.erase item_id)⟩, true)
    else (t, false)
  | none => (t, false)

/-! ## Quantity formatting (src/sync/quantity_formatter.py) -/

/-- A quantity-unit-conversion entry of a Grocy product.  The factor key
may be absent (conversion.get with default 1 in the source); its numeric
value is modelled by ℚ. -/
structure UnitConversion where
  from_qu_id : Option String
  to_qu_id : Option String
  factor : Option ℚ
deriving DecidableEq, Repr

/-- A Grocy quantity unit record (get_quantity_unit result). -/
structure QuantityUnit where
  id : Option String
  name : Option String
  name_plural : Option String
deriving DecidableEq, Repr

/-- Grocy product details carried by a shopping-list item.  The name key
is modelled as present (every claim exercises products the API returned
with a name). -/
structure GrocyProduct where
  name : String
  qu_id_purchase : Option String
  qu_id_stock : Option String
  quantity_unit_conversions : Option (List UnitConversion)
deriving DecidableEq, Repr

/-- A Grocy shopping-list item.  amount absent models the empty-string
default of grocy_item.get in format_quantity; done defaults to 0. -/
structure GrocyItem where
  amount : Option ℚ
  qu_id : Option String
  product_details : Option GrocyProduct
  note : Option String
  done : Nat
deriving DecidableEq, Repr

/-- The dynamic type of the Python quantity variable in format_quantity:
the empty-string default, or a number. -/
inductive QVal where
  | num (q : ℚ)
  | str (s : String)
deriving DecidableEq, Repr

/-- Python round(x, 2) on the rational model: round to the nearest
multiple of 1/100 (Mathlib round; the claims do not exercise ties, where
CPython floats round half to even). -/
def round2 (q : ℚ) : ℚ := ((round (q * 100) : ℤ) : ℚ) / 100

/-- The rounding block repeated at lines 70-72 and 94-96 of
src/sync/quantity_formatter.py: round the converted quantity to two
decimals, then collapse to the nearest integer when within 0.05 of it. -/
def roundConvert (q : ℚ) : ℚ :=
  let r := round2 q
  if |r - ((round r : ℤ) : ℚ)| < 1/20 then ((round r : ℤ) : ℚ) else r

/-- QuantityFormatter._find_conversion_factor.  A missing factor key
defaults to 1.  Except.error models the uncaught ZeroDivisionError the
source raises on the inverse path when the stored factor is zero (the
expression 1 / float of the factor at line 161). -/
def findConversionFactor (product : GrocyProduct) (from_qu_id to_qu_id : Option String) :
    Except Unit (Option ℚ) :=
  match product.quantity_unit_conversions with
  | none => .ok none
  | some conversions =>
    match conversions.find? (fun c => c.from_qu_id == from_qu_id && c.to_qu_id == to_qu_id) with
    | some c => .ok (some (c.factor.getD 1))
    | none =>
      match conversions.find? (fun c => c.from_qu_id == to_qu_id && c.to_qu_id == from_qu_id) with
      | some c =>
        let f := c.factor.getD 1
        if f = 0 then .error () else .ok (some (1 / f))
      | none => .ok none

/-- Python str() of an integer or of the rational quantity value.  The
precise digit string CPython renders for a float is not modelled; this
rendering is fixed and deterministic, which is all the reconciliation
logic observes. -/
def renderQ (q : ℚ) : String :=
  if q.den = 1 then toString q.num else toString q.num ++ "/" ++ toString q.den

/-- Python str() of the quantity variable. -/
def renderQVal : QVal → String
  | .num q => renderQ q
  | .str s => s

/-- QuantityFormatter._get_unit_name: singular for quantity 1, else the
plural name, else singular with a trailing s appended, with the
synthetic fallback when no name is available; a non-numeric quantity
(the empty-string default, whose float() raises and is caught) yields
the singular form. -/
def getUnitName (qu : QuantityUnit) (quantity : QVal) : String :=
  let fallback := "unit " ++ qu.id.getD ""
  match quantity with
  | .str _ => qu.name.getD fallback
  | .num q =>
    if q = 1 then qu.name.getD fallback
    else
      let unit := qu.name_plural.getD (qu.name.getD fallback)
      let plural_falsy : Bool :=
        match qu.name_plural with
        | none => true
        | some s => s = ""
      if qu.name = some unit ∧ plural_falsy then
        if ¬ pyEndsWith unit "s" then unit ++ "s" else unit
      else unit

/-- Grocy client's get_quantity_unit viewed as a mapping from unit id to
the unit record (none models a failed or empty lookup). -/
def lookupUnit : List (String × QuantityUnit) → String → Option QuantityUnit
  | [], _ => none
  | (k, v) :: rest, qid => if k = qid then some v else lookupUnit rest qid

/-- The tail of format_quantity (lines 124-132): resolve the unit name
and build the display string, appending the unit only when truthy. -/
def finishQuantity (quantity : QVal) (quantity_unit : Option QuantityUnit) : QVal × String :=
  let unit : Option String :=
    match quantity_unit with
    | some qu => some (getUnitName qu quantity)
    | none => none
  let quantity_str := renderQVal quantity
  match unit with
  | some u => if u ≠ "" then (quantity, quantity_str ++ " " ++ u) else (quantity, quantity_str)
  | none => (quantity, quantity_str)

/-- QuantityFormatter.format_quantity.  Except.error propagates the
ZeroDivisionError _find_conversion_factor may raise (the try blocks in
the source begin after those calls and do not catch it); the
ValueError/TypeError the source does catch, from float() of the
empty-string default amount, leaves the quantity unchanged exactly as
the handlers do.  The second component of the conversion step is the
unit id used downstream (CASE 2 switches it to the purchase unit only
after a successful conversion). -/
def formatQuantity (units : List (String × QuantityUnit)) (grocy_item : GrocyItem) :
    Except Unit (QVal × String) :=
  let original_quantity : QVal :=
    match grocy_item.amount with
    | some q => QVal.num q
    | none => QVal.str ""
  match grocy_item.product_details with
  | some product =>
    let shopping_list_qu_id := grocy_item.qu_id
    let product_purchase_qu_id := product.qu_id_purchase
    let product_stock_qu_id := product.qu_id_stock
    let step : Except Unit (QVal × Option String) :=
      if shopping_list_qu_id = product_purchase_qu_id ∧
          product_purchase_qu_id ≠ product_stock_qu_id then
        match findConversionFactor product product_stock_qu_id product_purchase_qu_id with
        | .error e => .error e
        | .ok (some f) =>
          if f ≠ 0 then
            match original_quantity with
            | .num q => .ok (QVal.num (roundConvert (q * f)), shopping_list_qu_id)
            | .str _ => .ok (original_quantity, shopping_list_qu_id)
          else .ok (original_quantity, shopping_list_qu_id)
        | .ok none => .ok (original_quantity, shopping_list_qu_id)
      else if shopping_list_qu_id ≠ product_purchase_qu_id then
        match findConversionFactor product shopping_list_qu_id product_purchase_qu_id with
        | .error e => .error e
        | .ok (some f) =>
          if f ≠ 0 then
            match original_quantity with
            | .num q => .ok (QVal.num (roundConvert (q * f)), product_purchase_qu_id)
            | .str _ => .ok (original_quantity, shopping_list_qu_id)
          else .ok (original_quantity, shopping_list_qu_id)
        | .ok none => .ok (original_quantity, shopping_list_qu_id)
      else .ok (original_quantity, shopping_list_qu_id)
    match step with
    | .error e => .error e
    | .ok (quantity, qu_id_final) =>
      let quantity_unit : Option QuantityUnit :=
        match qu_id_final with
        | some qid => if qid ≠ "" then lookupUnit units qid else none
        | none => none
      .ok (finishQuantity quantity quantity_unit)
  | none =>
    let quantity_unit : Option QuantityUnit :=
      match grocy_item.qu_id with
      | some qid => if qid ≠ "" then lookupUnit units qid else none
      | none => none
    .ok (finishQuantity original_quantity quantity_unit)

/-! ## Deletion policy (src/sync/deletion_manager.py) -/

/-- Deletion configuration flags read in DeletionManager.__init__. -/
structure DeletionConfig where
  enabled : Bool
  dry_run : Bool
  respect_crossed_off : Bool
  preserve_manual_items : Bool
deriving DecidableEq, Repr

/-- The product name a source item contributes (product_details name, or
the note with its Unknown item default), shared by process_deletions and
_get_product_info. -/
def getProductName (grocy_item : GrocyItem) : String :=
  match grocy_item.product_details with
  | some product => product.name
  | none => grocy_item.note.getD "Unknown item"

/-- Lines 42-58 of src/sync/deletion_manager.py: the lower-cased mapped
names of non-done source items (a Python set; modelled by the list, only
membership being consulted). -/
def grocyProductNames (im : ItemMatcher) (grocy_items : List GrocyItem) : List String :=
  (grocy_items.filter (fun g => g.done ≠ 1)).map
    (fun g => pyLower (im.map_item_name (getProductName g)))

/-- The per-item guard chain of DeletionManager.process_deletions (lines
62-81) deciding whether one mirror item is marked for removal. -/
def deletionMarks (cfg : DeletionConfig) (tracker : SyncTracker) (og_list_id : String)
    (names : List String) (im : ItemMatcher) (og_item : OGItem) : Bool :=
  match og_item.id, og_item.value with
  | some iid, some v =>
    if cfg.respect_crossed_off && og_item.crossedOff then false
    else if cfg.preserve_manual_items && !(tracker.is_tracked_item og_list_id iid) then false
    else !(names.contains (im.extract_base_name v))
  | _, _ => false

/-- The items_to_remove list process_deletions accumulates. -/
def itemsToRemove (cfg : DeletionConfig) (tracker : SyncTracker) (og_list_id : String)
    (grocy_items : List GrocyItem) (og_items : List OGItem) (im : ItemMatcher) :
    List OGItem :=
  og_items.filter (deletionMarks cfg tracker og_list_id (grocyProductNames im grocy_items) im)

/-! ## Reconciliation orchestrator (src/sync/sync_manager.py)

The two remote clients are abstracted exactly at their interface: the
mirror client's mutations either succeed or report failure (callOk,
indexed by the number of calls attempted so far), and on success the
mirror assigns the new item the next id from idGen.  Category
resolution lives inside the mirror client, outside the cited scope: it
influences neither item values, matching, tracking nor deletion, and is
not modelled. -/

/-- Configuration and collaborators of one SyncManager instance. -/
structure SyncEnv where
  im : ItemMatcher
  units : List (String × QuantityUnit)
  del : DeletionConfig
  callOk : Nat → Bool
  idGen : Nat → String

/-- One attempted mirror-client call. -/
inductive MirrorCall where
  | removeCall (list_id item_id : String)
  | addCall (list_id value : String)
deriving DecidableEq, Repr

/-- The mutable world one sync pass acts on: the mirror list contents,
the tracking ledger, the mirror's id counter, the log of attempted
client calls, and the client's last-added-item cache. -/
structure SyncState where
  mirror : List OGItem
  tracker : SyncTracker
  nextId : Nat
  attempts : List MirrorCall
  lastAdded : Option String
deriving DecidableEq, Repr

/-- OurGroceriesClient.remove_item_from_list as the engine observes it:
on success the item with that id disappears from the mirror list. -/
def clientRemove (env : SyncEnv) (st : SyncState) (list_id item_id : String) :
    SyncState × Bool :=
  let ok := env.callOk st.attempts.length
  let st1 := { st with attempts := st.attempts ++ [.removeCall list_id item_id] }
  if ok then
    ({ st1 with mirror := st1.mirror.filter (fun it => it.id != some item_id) }, true)
  else (st1, false)

/-- The item value assembled by add_item_to_list (lines 291-295 of
src/clients/ourgroceries_client.py): name+separator+quantity, or just
the name when the quantity string is falsy. -/
def mkItemValue (im : ItemMatcher) (item_name quantity : String) : String :=
  if quantity ≠ "" then item_name ++ im.quantity_separator ++ quantity else item_name

/-- OurGroceriesClient.add_item_to_list (value assembly at lines
291-295) plus the last-added-item cache backing get_last_added_item_id:
on success the mirror appends a fresh, not-crossed-off item whose value
is name+separator+quantity, or just the name for a falsy quantity. -/
def clientAdd (env : SyncEnv) (st : SyncState) (list_id item_name quantity : String) :
    SyncState × Bool :=
  let item_value := mkItemValue env.im item_name quantity
  let ok := env.callOk st.attempts.length
  let st1 := { st with attempts := st.attempts ++ [.addCall list_id item_value] }
  if ok then
    let item_id := env.idGen st1.nextId
    ({ st1 with
        mirror := st1.mirror ++ [⟨some item_id, some item_value, false⟩],
        nextId := st1.nextId + 1,
        lastAdded := some item_id }, true)
  else (st1, false)

/-- SyncManager._add_new_item: add to the mirror and, on success, track
the id the client reports. -/
def addNewItem (env : SyncEnv) (og_list_id og_item_name quantity_str : String)
    (st : SyncState) : SyncState :=
  let r := clientAdd env st og_list_id og_item_name quantity_str
  if r.2 then
    match r.1.lastAdded with
    | some item_id =>
      { r.1 with tracker := (r.1.tracker.track_item og_list_id item_id og_item_name).1 }
    | none => r.1
  else r.1

/-- SyncManager._update_existing_item: compare quantities; on change,
remove the old entry then create the replacement, tracking the new id
only after a successful create.  Except.error models the KeyError a
matcher-bypassing item without an id would raise (unreachable through
find_matching_item, which only returns items carrying an id). -/
def updateExistingItem (env : SyncEnv) (existing_item : OGItem)
    (og_item_name quantity_str og_list_id : String) (st : SyncState) :
    Except Unit SyncState :=
  let existing_quantity := env.im.extract_existing_quantity existing_item
  if env.im.has_quantity_changed existing_quantity quantity_str then
    match existing_item.id with
    | none => .error ()
    | some rid =>
      let r := clientRemove env st og_list_id rid
      if r.2 then
        let r2 := clientAdd env r.1 og_list_id og_item_name quantity_str
        if r2.2 then
          match r2.1.lastAdded with
          | some new_item_id =>
            .ok { r2.1 with
                    tracker := (r2.1.tracker.track_item og_list_id new_item_id og_item_name).1 }
          | none => .ok r2.1
        else .ok r2.1
      else .ok r.1
  else .ok st

/-- SyncManager._process_grocy_item: format the quantity (which may
raise), map the name, look for an existing match in the snapshot, then
update or add. -/
def processGrocyItem (env : SyncEnv) (og_list_id : String) (og_items : List OGItem)
    (grocy_item : GrocyItem) (st : SyncState) : Except Unit SyncState :=
  match formatQuantity env.units grocy_item with
  | .error e => .error e
  | .ok (_, quantity_str) =>
    let product_name := getProductName grocy_item
    let og_item_name := env.im.map_item_name product_name
    match env.im.find_matching_item product_name og_items with
    | some existing_item =>
      updateExistingItem env existing_item og_item_name quantity_str og_list_id st
    | none => .ok (addNewItem env og_list_id og_item_name quantity_str st)

/-- The per-item loop of sync_list (lines 120-126), skipping done items.
The only reachable exception is raised by formatQuantity before any
mutation of that iteration, so the state returned with false is the
state at the raise. -/
def processItems (env : SyncEnv) (og_list_id : String) (og_items : List OGItem) :
    List GrocyItem → SyncState → SyncState × Bool
  | [], st => (st, true)
  | g :: rest, st =>
    if g.done = 1 then processItems env og_list_id og_items rest st
    else
      match processGrocyItem env og_list_id og_items g st with
      | .ok st1 => processItems env og_list_id og_items rest st1
      | .error _ => (st, false)

/-- The removal phase of process_deletions (lines 84-93), one marked
item at a time in snapshot order: in dry-run mode nothing is called;
otherwise each marked item is removed and, on success, untracked. -/
def runDeletions (env : SyncEnv) (og_list_id : String) :
    List OGItem → SyncState → SyncState
  | [], st => st
  | item :: rest, st =>
    let st1 :=
      if env.del.dry_run then st
      else
        match item.id with
        | some iid =>
          let r := clientRemove env st og_list_id iid
          if r.2 then
            { r.1 with tracker := (r.1.tracker.remove_tracking og_list_id iid).1 }
          else r.1
        | none => st
    runDeletions env og_list_id rest st1

/-- DeletionManager.process_deletions: gated on enabled; the marking is
computed in full (against the snapshot and the ledger as of this point)
before any removal is attempted. -/
def processDeletions (env : SyncEnv) (og_list_id : String) (grocy_items : List GrocyItem)
    (og_items : List OGItem) (st : SyncState) : SyncState :=
  if env.del.enabled then
    runDeletions env og_list_id
      (itemsToRemove env.del st.tracker og_list_id grocy_items og_items env.im) st
  else st

/-- SyncManager.sync_list for one list pair.  The fetches are
abstracted: the source snapshot grocy_items and the mirror-list lookup
result og_list arrive as arguments, and the mirror item snapshot is
read once from the state (the client invalidates its list-items cache
on every successful mutation, so a later sync_list call observes the
then-current mirror).  An empty source snapshot returns success
immediately; a missing mirror list fails the pass. -/
def sync_list (env : SyncEnv) (grocy_items : List GrocyItem) (og_list : Option String)
    (st : SyncState) : SyncState × Bool :=
  if grocy_items.isEmpty then (st, true)
  else
    match og_list with
    | none => (st, false)
    | some og_list_id =>
      let og_items := st.mirror
      let r := processItems env og_list_id og_items grocy_items st
      if r.2 then (processDeletions env og_list_id grocy_items og_items r.1, true)
      else (r.1, false)

/-! ## Specification-side definitions

These follow the spec's wording, for comparison against the embedded
code. -/

/-- The spec's normalization in the change rule for quantities:
lower-case and remove all space characters, a missing quantity counting
as empty. -/
def normQuantity : Option String → String
  | none => ""
  | some s => removeSpaces (pyLower s)

/-! ## Proof-infrastructure definitions -/

/-- A mirror item is well-formed when it carries both id and value (the
isinstance/key guard shared by find_matching_item and the deletion
marking). -/
def OGItem.wf (it : OGItem) : Bool := it.id.isSome && it.value.isSome

/-- The extracted base name of a mirror item's value. -/
def baseOfItem (im : ItemMatcher) (it : OGItem) : String :=
  im.extract_base_name (it.value.getD "")

/-- The lower-cased mapped name a source item is matched and deleted
under. -/
def itemKey (im : ItemMatcher) (g : GrocyItem) : String :=
  pyLower (im.map_item_name (getProductName g))

/-- Source items the pass acts on (the done-flag skip of the loops in
sync_list and process_deletions). -/
def nonDone (g : GrocyItem) : Bool := g.done != 1

/-- One source item is settled against a mirror snapshot: its quantity
formats successfully, a matching mirror item exists, and the quantity
comparison reports no change — so processing it performs no mirror
call. -/
def MatchedNoChange (env : SyncEnv) (g : GrocyItem) (mirror : List OGItem) : Prop :=
  ∃ qv qs m, formatQuantity env.units g = .ok (qv, qs) ∧
    env.im.find_matching_item (getProductName g) mirror = some m ∧
    env.im.has_quantity_changed (env.im.extract_existing_quantity m) qs = false

/-- The round-trip facts one source item needs of the configuration:
its quantity formats successfully, the value the mirror client would
assemble for it parses back to its own key, and the parsed-back
quantity compares as unchanged. -/
def FormatsCleanly (env : SyncEnv) (g : GrocyItem) : Prop :=
  ∃ qv qs, formatQuantity env.units g = .ok (qv, qs) ∧
    env.im.extract_base_name
      (mkItemValue env.im (env.im.map_item_name (getProductName g)) qs) = itemKey env.im g ∧
    env.im.has_quantity_changed
      (env.im.extract_existing_quantity
        ⟨none, some (mkItemValue env.im (env.im.map_item_name (getProductName g)) qs), false⟩)
      qs = false

/-- Invariant carried over the per-item loop of a pass working against
the snapshot S0: how the mirror, ledger and id counter may have evolved
after the items in processed have been handled. -/
structure LoopInv (env : SyncEnv) (L : String) (S0 : List OGItem) (t0 : SyncTracker)
    (processed : List GrocyItem) (st : SyncState) : Prop where
  mirror_split : ∀ it ∈ st.mirror, it ∈ S0 ∨
    (it.wf = true ∧ it.crossedOff = false ∧
     baseOfItem env.im it ∈ processed.map (itemKey env.im) ∧
     st.tracker.is_tracked_item L (it.id.getD "") = true ∧
     ∃ k, k < st.nextId ∧ it.id = some (env.idGen k))
  src_kept : ∀ it ∈ S0, it.wf = true →
    baseOfItem env.im it ∉ processed.map (itemKey env.im) → it ∈ st.mirror
  ids_distinct : st.mirror.Pairwise (fun a b => ∀ i, a.id = some i → b.id ≠ some i)
  tracker_s0 : ∀ i : String, (∃ it ∈ S0, it.id = some i) →
    st.tracker.is_tracked_item L i = t0.is_tracked_item L i
  matched : ∀ g ∈ processed, MatchedNoChange env g st.mirror

/-- Demonstration environment: default separator, no name mappings, a
Bottle unit, deletion enabled live, every mirror call succeeding, and
the mirror assigning the fresh ids i, ii, iii, ... -/
def demoEnv : SyncEnv :=
  { im := ⟨[], " : "⟩,
    units := [("8", ⟨some "8", some "Bottle", some "Bottles"⟩)],
    del := ⟨true, false, true, false⟩,
    callOk := fun _ => true,
    idGen := fun n => String.mk (List.replicate (n + 1) 'i') }

/-- A source item named Water, amount 3, in unit 8. -/
def demoItem : GrocyItem := ⟨some 3, some "8", none, some "Water", 0⟩

/-- An empty starting state: empty mirror list and empty ledger. -/
def demoState : SyncState := ⟨[], ⟨[]⟩, 0, [], none⟩

/-- Same configuration with deletion disabled and no units: used with a
source item whose name contains the separator. -/
def sepEnv : SyncEnv :=
  { im := ⟨[], " : "⟩,
    units := [],
    del := ⟨false, true, true, true⟩,
    callOk := fun _ => true,
    idGen := fun n => String.mk (List.replicate (n + 1) 'i') }

/-- A source item whose name contains the configured separator. -/
def sepItem : GrocyItem := ⟨some 3, none, none, some "A : B", 0⟩

/-! ## Helper lemmas -/

theorem splitFirstAux_concat {sep b a : List Char} :
    ∀ {l : List Char}, splitFirstAux sep l = some (b, a) → l = b ++ sep ++ a := by
  intro l
  induction l generalizing b a with
  | nil => intro h; simp [splitFirstAux] at h
  | cons c rest ih =>
    intro h
    rw [splitFirstAux] at h
    split at h
    · next hpre =>
      obtain ⟨t, ht⟩ : sep <+: (c :: rest) := by
        exact (List.isPrefixOf_iff_prefix).mp hpre
      simp only [Option.some.injEq, Prod.mk.injEq] at h
      obtain ⟨hb, ha⟩ := h
      subst hb
      rw [← ht, List.nil_append]
      rw [← ha, ← ht, List.drop_left]
    · next hpre =>
      cases hrec : splitFirstAux sep rest with
      | none => rw [hrec] at h; simp at h
      | some pair =>
        obtain ⟨b0, a0⟩ := pair
        rw [hrec] at h
        simp only [Option.some.injEq, Prod.mk.injEq] at h
        obtain ⟨hb, ha⟩ := h
        subst ha
        have := ih hrec
        subst hb
        simp [this]

theorem splitFirstAux_min {sep b a : List Char} :
    ∀ {l : List Char}, splitFirstAux sep l = some (b, a) →
      ∀ b' a' : List Char, l = b' ++ sep ++ a' → b.length ≤ b'.length := by
  intro l
  induction l generalizing b a with
  | nil => intro h; simp [splitFirstAux] at h
  | cons c rest ih =>
    intro h b' a' heq
    rw [splitFirstAux] at h
    split at h
    · next hpre =>
      simp only [Option.some.injEq, Prod.mk.injEq] at h
      obtain ⟨hb, _⟩ := h
      subst hb
      simp
    · next hpre =>
      cases b' with
      | nil =>
        exfalso
        apply hpre
        rw [List.isPrefixOf_iff_prefix]
        exact ⟨a', by simpa using heq.symm⟩
      | cons c' b0' =>
        cases hrec : splitFirstAux sep rest with
        | none => rw [hrec] at h; simp at h
        | some pair =>
          obtain ⟨b0, a0⟩ := pair
          rw [hrec] at h
          simp only [Option.some.injEq, Prod.mk.injEq] at h
          obtain ⟨hb, ha⟩ := h
          subst ha hb
          simp only [List.cons_append, List.cons.injEq] at heq
          obtain ⟨_, htl⟩ := heq
          simpa using ih hrec b0' a' htl

theorem String.mk_append (a b : List Char) :
    String.mk (a ++ b) = String.mk a ++ String.mk b := rfl

theorem finishQuantity_fst (qv : QVal) (u : Option QuantityUnit) :
    (finishQuantity qv u).1 = qv := by
  unfold finishQuantity
  cases u with
  | none => rfl
  | some qu =>
    simp only []
    split <;> rfl

theorem getList_setList_self (l : List (String × List String)) (k : String)
    (v : List String) : getList (setList l k v) k = some v := by
  induction l with
  | nil => simp [setList, getList]
  | cons p rest ih =>
    obtain ⟨pk, pv⟩ := p
    by_cases h : pk = k
    · simp [setList, getList, h]
    · simp [setList, getList, h, ih]

theorem getList_append_absent (l : List (String × List String)) (k : String)
    (v : List String) (h : getList l k = none) :
    getList (l ++ [(k, v)]) k = some v := by
  induction l with
  | nil => simp [getList]
  | cons p rest ih =>
    obtain ⟨pk, pv⟩ := p
    by_cases hk : pk = k
    · simp [getList, hk] at h
    · simp only [getList, List.cons_append, hk, if_false] at h ⊢
      exact ih h

theorem abs_round2_sub_le (x : ℚ) : |round2 x - x| ≤ 1 / 200 := by
  have h : |x * 100 - (round (x * 100) : ℚ)| ≤ 1 / 2 := abs_sub_round (x * 100)
  have heq : round2 x - x = (((round (x * 100) : ℤ) : ℚ) - x * 100) / 100 := by
    unfold round2; ring
  rw [heq, abs_div, abs_sub_comm] at *
  have h100 : |(100 : ℚ)| = 100 := by norm_num
  rw [h100]
  rw [abs_sub_comm] at h
  linarith

theorem abs_roundConvert_sub_le (x : ℚ) : |roundConvert x - x| ≤ 11 / 200 := by
  have hr : |round2 x - x| ≤ 1 / 200 := abs_round2_sub_le x
  unfold roundConvert
  dsimp only
  split
  · next h =>
    have htri : |((round (round2 x) : ℤ) : ℚ) - x| ≤
        |((round (round2 x) : ℤ) : ℚ) - round2 x| + |round2 x - x| :=
      abs_sub_le _ _ _
    rw [abs_sub_comm ((round (round2 x) : ℤ) : ℚ) (round2 x)] at htri
    linarith
  · linarith

theorem finishQuantity_eq (qv : QVal) (u : Option QuantityUnit) :
    finishQuantity qv u = (qv, (finishQuantity qv u).2) :=
  Prod.ext (finishQuantity_fst qv u) rfl

/-- The first-occurrence split: when a nonempty pattern occurs in s,
beforeFirst/afterFirst decompose s around the occurrence with the
shortest possible prefix. -/
theorem splitFirst_spec (sep s : String) (hne : sep ≠ "")
    (hcont : strContains s sep = true) :
    ∃ pre post : String, s = pre ++ sep ++ post ∧
      (∀ pre' post' : String, s = pre' ++ sep ++ post' → pre.length ≤ pre'.length) ∧
      beforeFirst sep s = pre ∧ afterFirst sep s = post := by
  have hsome : (splitFirstAux sep.toList s.toList).isSome = true := by
    unfold strContains at hcont
    rw [if_neg hne] at hcont
    exact hcont
  obtain ⟨⟨b, a⟩, hsplit⟩ := Option.isSome_iff_exists.mp hsome
  refine ⟨String.mk b, String.mk a, ?_, ?_, ?_, ?_⟩
  · have hl := splitFirstAux_concat hsplit
    calc s = String.mk s.toList := rfl
    _ = String.mk (b ++ sep.toList ++ a) := congrArg String.mk hl
    _ = String.mk b ++ sep ++ String.mk a := rfl
  · intro pre' post' h
    have hdata : s.toList = pre'.data ++ sep.toList ++ post'.data := congrArg String.data h
    exact splitFirstAux_min hsplit pre'.data post'.data hdata
  · unfold beforeFirst
    rw [hsplit]
  · unfold afterFirst
    rw [hsplit]

section FindMatch

variable {im : ItemMatcher} {name : String}

theorem fm_some_spec : ∀ {l : List OGItem} {m : OGItem},
    im.find_matching_item name l = some m →
    m ∈ l ∧ m.wf = true ∧ baseOfItem im m = pyLower (im.map_item_name name) := by
  intro l
  induction l with
  | nil => intro m h; simp [ItemMatcher.find_matching_item] at h
  | cons it rest ih =>
    intro m h
    cases hv : it.value with
    | none =>
      simp only [ItemMatcher.find_matching_item, hv] at h
      obtain ⟨hm, hwf, hb⟩ := ih h
      exact ⟨List.mem_cons_of_mem _ hm, hwf, hb⟩
    | some v =>
      cases hi : it.id with
      | none =>
        simp only [ItemMatcher.find_matching_item, hv, hi] at h
        obtain ⟨hm, hwf, hb⟩ := ih h
        exact ⟨List.mem_cons_of_mem _ hm, hwf, hb⟩
      | some i =>
        simp only [ItemMatcher.find_matching_item, hv, hi] at h
        by_cases hkey : pyLower (im.map_item_name name) = im.extract_base_name v
        · rw [if_pos hkey] at h
          cases h
          refine ⟨List.mem_cons_self _ _, ?_, ?_⟩
          · simp [OGItem.wf, hv, hi]
          · rw [baseOfItem, hv]
            exact hkey.symm
        · rw [if_neg hkey] at h
          obtain ⟨hm, hwf, hb⟩ := ih h
          exact ⟨List.mem_cons_of_mem _ hm, hwf, hb⟩

theorem fm_none_of : ∀ {l : List OGItem},
    (∀ it ∈ l, it.wf = true → baseOfItem im it ≠ pyLower (im.map_item_name name)) →
    im.find_matching_item name l = none := by
  intro l
  induction l with
  | nil => intro _; rfl
  | cons it rest ih =>
    intro h
    have hrest : im.find_matching_item name rest = none :=
      ih fun a ha => h a (List.mem_cons_of_mem _ ha)
    cases hv : it.value with
    | none => simp only [ItemMatcher.find_matching_item, hv]; exact hrest
    | some v =>
      cases hi : it.id with
      | none => simp only [ItemMatcher.find_matching_item, hv, hi]; exact hrest
      | some i =>
        simp only [ItemMatcher.find_matching_item, hv, hi]
        rw [if_neg, hrest]
        intro hkey
        refine h it (List.mem_cons_self _ _) (by simp [OGItem.wf, hv, hi]) ?_
        rw [baseOfItem, hv]
        exact hkey.symm

theorem fm_none_imp : ∀ {l : List OGItem},
    im.find_matching_item name l = none →
    ∀ it ∈ l, it.wf = true → baseOfItem im it ≠ pyLower (im.map_item_name name) := by
  intro l
  induction l with
  | nil => intro _ it hit; simp at hit
  | cons a rest ih =>
    intro h it hit hwf hb
    cases hv : a.value with
    | none =>
      simp only [ItemMatcher.find_matching_item, hv] at h
      rcases List.mem_cons.mp hit with rfl | hmem
      · simp [OGItem.wf, hv] at hwf
      · exact ih h it hmem hwf hb
    | some v =>
      cases hi : a.id with
      | none =>
        simp only [ItemMatcher.find_matching_item, hv, hi] at h
        rcases List.mem_cons.mp hit with rfl | hmem
        · simp [OGItem.wf, hi] at hwf
        · exact ih h it hmem hwf hb
      | some i =>
        simp only [ItemMatcher.find_matching_item, hv, hi] at h
        by_cases hkey : pyLower (im.map_item_name name) = im.extract_base_name v
        · rw [if_pos hkey] at h
          exact Option.noConfusion h
        · rw [if_neg hkey] at h
          rcases List.mem_cons.mp hit with rfl | hmem
          · rw [baseOfItem, hv] at hb
            exact hkey hb.symm
          · exact ih h it hmem hwf hb

theorem fm_append_of_none {l l' : List OGItem}
    (h : im.find_matching_item name l = none) :
    im.find_matching_item name (l ++ l') = im.find_matching_item name l' := by
  induction l with
  | nil => simp
  | cons a rest ih =>
    rw [List.cons_append]
    cases hv : a.value with
    | none =>
      simp only [ItemMatcher.find_matching_item, hv] at h ⊢
      exact ih h
    | some v =>
      cases hi : a.id with
      | none =>
        simp only [ItemMatcher.find_matching_item, hv, hi] at h ⊢
        exact ih h
      | some i =>
        simp only [ItemMatcher.find_matching_item, hv, hi] at h ⊢
        by_cases hkey : pyLower (im.map_item_name name) = im.extract_base_name v
        · rw [if_pos hkey] at h
          exact Option.noConfusion h
        · rw [if_neg hkey] at h ⊢
          exact ih h

theorem fm_append_left : ∀ {l : List OGItem} {m : OGItem} (l' : List OGItem),
    im.find_matching_item name l = some m →
    im.find_matching_item name (l ++ l') = some m := by
  intro l
  induction l with
  | nil => intro m l' h; simp [ItemMatcher.find_matching_item] at h
  | cons a rest ih =>
    intro m l' h
    rw [List.cons_append]
    cases hv : a.value with
    | none =>
      simp only [ItemMatcher.find_matching_item, hv] at h ⊢
      exact ih l' h
    | some v =>
      cases hi : a.id with
      | none =>
        simp only [ItemMatcher.find_matching_item, hv, hi] at h ⊢
        exact ih l' h
      | some i =>
        simp only [ItemMatcher.find_matching_item, hv, hi] at h ⊢
        by_cases hkey : pyLower (im.map_item_name name) = im.extract_base_name v
        · rw [if_pos hkey] at h ⊢
          exact h
        · rw [if_neg hkey] at h ⊢
          exact ih l' h

theorem fm_unique : ∀ {l : List OGItem} {m : OGItem},
    m ∈ l → m.wf = true → baseOfItem im m = pyLower (im.map_item_name name) →
    (∀ it ∈ l, it.wf = true →
      baseOfItem im it = pyLower (im.map_item_name name) → it = m) →
    im.find_matching_item name l = some m := by
  intro l
  induction l with
  | nil => intro m hm; simp at hm
  | cons a rest ih =>
    intro m hm hwf hb huniq
    cases hv : a.value with
    | none =>
      simp only [ItemMatcher.find_matching_item, hv]
      rcases List.mem_cons.mp hm with rfl | hmem
      · simp [OGItem.wf, hv] at hwf
      · exact ih hmem hwf hb fun it hit => huniq it (List.mem_cons_of_mem _ hit)
    | some v =>
      cases hi : a.id with
      | none =>
        simp only [ItemMatcher.find_matching_item, hv, hi]
        rcases List.mem_cons.mp hm with rfl | hmem
        · simp [OGItem.wf, hi] at hwf
        · exact ih hmem hwf hb fun it hit => huniq it (List.mem_cons_of_mem _ hit)
      | some i =>
        simp only [ItemMatcher.find_matching_item, hv, hi]
        by_cases hkey : pyLower (im.map_item_name name) = im.extract_base_name v
        · rw [if_pos hkey]
          have haeq : a = m := by
            refine huniq a (List.mem_cons_self _ _) (by simp [OGItem.wf, hv, hi]) ?_
            rw [baseOfItem, hv]
            exact hkey.symm
          rw [haeq]
        · rw [if_neg hkey]
          rcases List.mem_cons.mp hm with rfl | hmem
          · rw [baseOfItem, hv] at hb
            exact absurd hb.symm hkey
          · exact ih hmem hwf hb fun it hit => huniq it (List.mem_cons_of_mem _ hit)

theorem fm_filter {p : OGItem → Bool} : ∀ {l : List OGItem} {m : OGItem},
    im.find_matching_item name l = some m → p m = true →
    (∀ it ∈ l, it.wf = true →
      baseOfItem im it = pyLower (im.map_item_name name) → p it = true) →
    im.find_matching_item name (l.filter p) = some m := by
  intro l
  induction l with
  | nil => intro m h; simp [ItemMatcher.find_matching_item] at h
  | cons a rest ih =>
    intro m h hpm hp
    by_cases hpa : p a = true
    · rw [List.filter_cons_of_pos hpa]
      cases hv : a.value with
      | none =>
        simp only [ItemMatcher.find_matching_item, hv] at h ⊢
        exact ih h hpm fun it hit => hp it (List.mem_cons_of_mem _ hit)
      | some v =>
        cases hi : a.id with
        | none =>
          simp only [ItemMatcher.find_matching_item, hv, hi] at h ⊢
          exact ih h hpm fun it hit => hp it (List.mem_cons_of_mem _ hit)
        | some i =>
          simp only [ItemMatcher.find_matching_item, hv, hi] at h ⊢
          by_cases hkey : pyLower (im.map_item_name name) = im.extract_base_name v
          · rw [if_pos hkey] at h ⊢
            exact h
          · rw [if_neg hkey] at h ⊢
            exact ih h hpm fun it hit => hp it (List.mem_cons_of_mem _ hit)
    · rw [List.filter_cons_of_neg (by simpa using hpa)]
      cases hv : a.value with
      | none =>
        simp only [ItemMatcher.find_matching_item, hv] at h
        exact ih h hpm fun it hit => hp it (List.mem_cons_of_mem _ hit)
      | some v =>
        cases hi : a.id with
        | none =>
          simp only [ItemMatcher.find_matching_item, hv, hi] at h
          exact ih h hpm fun it hit => hp it (List.mem_cons_of_mem _ hit)
        | some i =>
          simp only [ItemMatcher.find_matching_item, hv, hi] at h
          by_cases hkey : pyLower (im.map_item_name name) = im.extract_base_name v
          · rw [if_pos hkey] at h
            cases h
            exact absurd hpm hpa
          · rw [if_neg hkey] at h
            exact ih h hpm fun it hit => hp it (List.mem_cons_of_mem _ hit)

end FindMatch

theorem getList_setList_other (l : List (String × List String)) (k k' : String)
    (v : List String) (hne : k' ≠ k) : getList (setList l k v) k' = getList l k' := by
  induction l with
  | nil => simp [setList, getList, Ne.symm hne]
  | cons p rest ih =>
    obtain ⟨pk, pv⟩ := p
    by_cases h : pk = k
    · subst h
      simp [setList, getList, Ne.symm hne]
    · simp [setList, getList, h, ih]

theorem is_tracked_after_track (t : SyncTracker) (L I nm : String) :
    ((t.track_item L I nm).1).is_tracked_item L I = true := by
  cases hg : getList t.lists L with
  | some ids =>
    by_cases hm : I ∈ ids
    · simp [SyncTracker.track_item, SyncTracker.is_tracked_item, hg, hm]
    · have hres : t.track_item L I nm = (⟨setList t.lists L (ids ++ [I])⟩, true) := by
        simp [SyncTracker.track_item, hg, hm]
      rw [hres]
      simp [SyncTracker.is_tracked_item, getList_setList_self]
  | none =>
    have hg2 : getList (t.lists ++ [(L, [])]) L = some [] :=
      getList_append_absent t.lists L [] hg
    have hres : t.track_item L I nm = (⟨setList (t.lists ++ [(L, [])]) L [I]⟩, true) := by
      simp [SyncTracker.track_item, hg, hg2]
    rw [hres]
    simp [SyncTracker.is_tracked_item, getList_setList_self]

theorem track_preserve_other (t : SyncTracker) (L I nm J : String) (hne : J ≠ I) :
    ((t.track_item L I nm).1).is_tracked_item L J = t.is_tracked_item L J := by
  cases hg : getList t.lists L with
  | some ids =>
    by_cases hm : I ∈ ids
    · simp [SyncTracker.track_item, hg, hm]
    · have hres : t.track_item L I nm = (⟨setList t.lists L (ids ++ [I])⟩, true) := by
        simp [SyncTracker.track_item, hg, hm]
      rw [hres]
      simp [SyncTracker.is_tracked_item, getList_setList_self, hg, hne]
  | none =>
    have hg2 : getList (t.lists ++ [(L, [])]) L = some [] :=
      getList_append_absent t.lists L [] hg
    have hres : t.track_item L I nm = (⟨setList (t.lists ++ [(L, [])]) L [I]⟩, true) := by
      simp [SyncTracker.track_item, hg, hg2]
    rw [hres]
    simp [SyncTracker.is_tracked_item, getList_setList_self, hg, hne]

theorem remove_tracking_mono (t : SyncTracker) (L I J : String) :
    ((t.remove_tracking L I).1).is_tracked_item L J = true →
    t.is_tracked_item L J = true := by
  intro h
  cases hg : getList t.lists L with
  | some ids =>
    by_cases hm : I ∈ ids
    · have hres : (t.remove_tracking L I).1 = ⟨setList t.lists L (ids.erase I)⟩ := by
        simp [SyncTracker.remove_tracking, hg, hm]
      rw [hres, SyncTracker.is_tracked_item, getList_setList_self] at h
      rw [SyncTracker.is_tracked_item, hg]
      simp at h ⊢
      exact List.mem_of_mem_erase h
    · have hres : (t.remove_tracking L I).1 = t := by
        simp [SyncTracker.remove_tracking, hg, hm]
      rwa [hres] at h
  | none =>
    have hres : (t.remove_tracking L I).1 = t := by
      simp [SyncTracker.remove_tracking, hg]
    rwa [hres] at h

theorem deletionMarks_spec {cfg : DeletionConfig} {t : SyncTracker} {L : String}
    {names : List String} {im : ItemMatcher} {it : OGItem}
    (h : deletionMarks cfg t L names im it = true) :
    it.wf = true ∧ baseOfItem im it ∉ names := by
  rcases it with ⟨xid, xval, xcr⟩
  cases xid with
  | none => simp [deletionMarks] at h
  | some i =>
    cases xval with
    | none => simp [deletionMarks] at h
    | some v =>
      refine ⟨by simp [OGItem.wf], ?_⟩
      simp only [deletionMarks] at h
      split_ifs at h
      simpa [baseOfItem] using h

theorem deletionMarks_false_of_base_mem {cfg : DeletionConfig} {t : SyncTracker}
    {L : String} {names : List String} {im : ItemMatcher} {it : OGItem}
    (h : baseOfItem im it ∈ names) :
    deletionMarks cfg t L names im it = false := by
  rcases it with ⟨xid, xval, xcr⟩
  cases xid with
  | none => simp [deletionMarks]
  | some i =>
    cases xval with
    | none => simp [deletionMarks]
    | some v =>
      simp only [deletionMarks]
      split_ifs
      · rfl
      · rfl
      · simpa [baseOfItem] using h

theorem deletionMarks_mono_tracker {cfg : DeletionConfig} {t t' : SyncTracker}
    {L : String} {names : List String} {im : ItemMatcher} {it : OGItem}
    (hmono : ∀ j, t.is_tracked_item L j = true → t'.is_tracked_item L j = true)
    (h : deletionMarks cfg t' L names im it = false) :
    deletionMarks cfg t L names im it = false := by
  rcases it with ⟨xid, xval, xcr⟩
  cases xid with
  | none => simp [deletionMarks]
  | some i =>
    cases xval with
    | none => simp [deletionMarks]
    | some v =>
      simp only [deletionMarks] at h ⊢
      split_ifs with h1 h2
      · rfl
      · rfl
      · rw [if_neg h1] at h
        by_cases ht' : (cfg.preserve_manual_items && !(t'.is_tracked_item L i)) = true
        · exfalso
          rw [Bool.and_eq_true, Bool.not_eq_true'] at ht'
          rw [Bool.and_eq_true, Bool.not_eq_true'] at h2
          rcases Bool.eq_false_or_eq_true (t.is_tracked_item L i) with htt | hf
          · exact absurd (hmono i htt) (by simp [ht'.2])
          · exact h2 ⟨ht'.1, hf⟩
        · rw [if_neg ht'] at h
          exact h

theorem runDeletions_dry {env : SyncEnv} {L : String} (hdry : env.del.dry_run = true) :
    ∀ (ms : List OGItem) (st : SyncState), runDeletions env L ms st = st := by
  intro ms
  induction ms with
  | nil => intro st; rfl
  | cons m rest ih =>
    intro st
    rw [runDeletions]
    dsimp only
    rw [if_pos hdry]
    exact ih st

theorem runDeletions_live {env : SyncEnv} {L : String}
    (hcalls : ∀ n, env.callOk n = true) (hdry : env.del.dry_run = false) :
    ∀ (ms : List OGItem) (st : SyncState), (∀ m ∈ ms, m.id.isSome = true) →
    (runDeletions env L ms st).mirror
        = st.mirror.filter (fun it => ms.all (fun m => it.id != m.id)) ∧
    (∀ j, (runDeletions env L ms st).tracker.is_tracked_item L j = true →
      st.tracker.is_tracked_item L j = true) := by
  intro ms
  induction ms with
  | nil =>
    intro st _
    constructor
    · simp [runDeletions]
    · intro j h
      exact h
  | cons m rest ih =>
    intro st hids
    obtain ⟨i, hi⟩ := Option.isSome_iff_exists.mp (hids m (List.mem_cons_self _ _))
    have hbody : runDeletions env L (m :: rest) st
        = runDeletions env L rest
            ⟨st.mirror.filter (fun it => it.id != some i),
             ((st.tracker.remove_tracking L i).1), st.nextId,
             st.attempts ++ [.removeCall L i], st.lastAdded⟩ := by
      rw [runDeletions]
      dsimp only
      rw [if_neg (by simp [hdry]), hi]
      dsimp only
      simp only [clientRemove, hcalls, if_true]
    rw [hbody]
    obtain ⟨hmir, htrk⟩ := ih _ (fun a ha => hids a (List.mem_cons_of_mem _ ha))
    constructor
    · rw [hmir]
      simp only [List.filter_filter]
      apply List.filter_congr
      intro it _
      rw [List.all_cons, hi]
      rw [Bool.and_comm]
    · intro j h
      exact remove_tracking_mono _ _ _ _ (htrk j h)

theorem OGItem.wf_iff {it : OGItem} :
    it.wf = true ↔ ∃ i v, it.id = some i ∧ it.value = some v := by
  rcases it with ⟨xid, xval, xcr⟩
  cases xid <;> cases xval <;> simp [OGItem.wf]

theorem symm_ids :
    Symmetric (fun a b : OGItem => ∀ i, a.id = some i → b.id ≠ some i) :=
  fun _ _ h i hb ha => h i ha hb

theorem symm_base (im : ItemMatcher) :
    Symmetric (fun a b : OGItem =>
      a.wf = true → b.wf = true → baseOfItem im a ≠ baseOfItem im b) :=
  fun _ _ h hbwf hawf heq => h hawf hbwf heq.symm

theorem processItems_stable {env : SyncEnv} {L : String} :
    ∀ (gs : List GrocyItem) (og : List OGItem) (st : SyncState),
    (∀ g ∈ gs, g.done ≠ 1 → MatchedNoChange env g og) →
    processItems env L og gs st = (st, true) := by
  intro gs
  induction gs with
  | nil => intro og st _; rfl
  | cons g rest ih =>
    intro og st hm
    rw [processItems]
    by_cases hd : g.done = 1
    · rw [if_pos hd]
      exact ih og st fun a ha => hm a (List.mem_cons_of_mem _ ha)
    · rw [if_neg hd]
      obtain ⟨qv, qs, m, hfmt, hfm, hch⟩ := hm g (List.mem_cons_self _ _) hd
      have hpg : processGrocyItem env L og g st = .ok st := by
        rw [processGrocyItem, hfmt]
        dsimp only
        rw [hfm]
        unfold updateExistingItem
        dsimp only
        rw [if_neg (by simp [hch])]
      rw [hpg]
      exact ih og st fun a ha => hm a (List.mem_cons_of_mem _ ha)

theorem sync_list_stable {env : SyncEnv} {L : String} (gs : List GrocyItem)
    (st : SyncState)
    (hm : ∀ g ∈ gs, g.done ≠ 1 → MatchedNoChange env g st.mirror)
    (hdel : env.del.enabled = true → env.del.dry_run = false →
      itemsToRemove env.del st.tracker L gs st.mirror env.im = []) :
    sync_list env gs (some L) st = (st, true) := by
  by_cases hempty : gs.isEmpty = true
  · rw [sync_list, if_pos hempty]
  · rw [sync_list, if_neg hempty]
    dsimp only
    rw [processItems_stable gs st.mirror st hm]
    dsimp only
    rw [if_pos rfl]
    rw [processDeletions]
    by_cases hen : env.del.enabled = true
    · rw [if_pos hen]
      by_cases hdry : env.del.dry_run = true
      · rw [runDeletions_dry hdry]
      · rw [hdel hen (by simpa using hdry)]
        rfl
    · rw [if_neg hen]

theorem clientRemove_eq {env : SyncEnv} {st : SyncState} {list_id rid : String}
    (hok : env.callOk st.attempts.length = true) :
    clientRemove env st list_id rid =
      (⟨st.mirror.filter (fun it => it.id != some rid), st.tracker, st.nextId,
        st.attempts ++ [.removeCall list_id rid], st.lastAdded⟩, true) := by
  unfold clientRemove
  dsimp only
  rw [hok, if_pos rfl]

theorem clientAdd_eq {env : SyncEnv} {st : SyncState} {list_id nm qs : String}
    (hok : env.callOk st.attempts.length = true) :
    clientAdd env st list_id nm qs =
      (⟨st.mirror ++ [⟨some (env.idGen st.nextId), some (mkItemValue env.im nm qs), false⟩],
        st.tracker, st.nextId + 1,
        st.attempts ++ [.addCall list_id (mkItemValue env.im nm qs)],
        some (env.idGen st.nextId)⟩, true) := by
  unfold clientAdd
  dsimp only
  rw [hok, if_pos rfl]

theorem clientRemove_fail {env : SyncEnv} {st : SyncState} {list_id rid : String}
    (hok : env.callOk st.attempts.length = false) :
    clientRemove env st list_id rid
      = ({ st with attempts := st.attempts ++ [.removeCall list_id rid] }, false) := by
  unfold clientRemove
  dsimp only
  rw [hok, if_neg (by simp)]

theorem clientAdd_fail {env : SyncEnv} {st : SyncState} {list_id nm qs : String}
    (hok : env.callOk st.attempts.length = false) :
    clientAdd env st list_id nm qs
      = ({ st with
            attempts := st.attempts ++ [.addCall list_id (mkItemValue env.im nm qs)] },
         false) := by
  unfold clientAdd
  dsimp only
  rw [hok, if_neg (by simp)]

theorem addNewItem_eq {env : SyncEnv} {st : SyncState} {L nm qs : String}
    (hcalls : ∀ n, env.callOk n = true) :
    addNewItem env L nm qs st =
      ⟨st.mirror ++ [⟨some (env.idGen st.nextId), some (mkItemValue env.im nm qs), false⟩],
       (st.tracker.track_item L (env.idGen st.nextId) nm).1,
       st.nextId + 1,
       st.attempts ++ [.addCall L (mkItemValue env.im nm qs)],
       some (env.idGen st.nextId)⟩ := by
  unfold addNewItem
  rw [clientAdd_eq (hcalls _)]
  dsimp only
  rw [if_pos rfl]

theorem updateExistingItem_eq_unchanged {env : SyncEnv} {m : OGItem}
    {nm qs L : String} {st : SyncState}
    (hch : env.im.has_quantity_changed (env.im.extract_existing_quantity m) qs = false) :
    updateExistingItem env m nm qs L st = .ok st := by
  unfold updateExistingItem
  dsimp only
  rw [if_neg (by simp [hch])]

theorem updateExistingItem_eq_changed {env : SyncEnv} {m : OGItem}
    {nm qs L mid : String} {st : SyncState}
    (hcalls : ∀ n, env.callOk n = true)
    (hch : env.im.has_quantity_changed (env.im.extract_existing_quantity m) qs = true)
    (hmid : m.id = some mid) :
    updateExistingItem env m nm qs L st = .ok
      ⟨(st.mirror.filter (fun it => it.id != some mid)) ++
          [⟨some (env.idGen st.nextId), some (mkItemValue env.im nm qs), false⟩],
       (st.tracker.track_item L (env.idGen st.nextId) nm).1,
       st.nextId + 1,
       (st.attempts ++ [.removeCall L mid]) ++ [.addCall L (mkItemValue env.im nm qs)],
       some (env.idGen st.nextId)⟩ := by
  unfold updateExistingItem
  dsimp only
  rw [if_pos hch, hmid]
  dsimp only
  rw [clientRemove_eq (hcalls _)]
  dsimp only
  rw [if_pos rfl]
  rw [clientAdd_eq (hcalls _)]
  dsimp only
  rw [if_pos rfl]

theorem processGrocyItem_create {env : SyncEnv} {L : String} {og : List OGItem}
    {g : GrocyItem} {st : SyncState} {qv : QVal} {qs : String}
    (hq : formatQuantity env.units g = .ok (qv, qs))
    (hfm : env.im.find_matching_item (getProductName g) og = none) :
    processGrocyItem env L og g st =
      .ok (addNewItem env L (env.im.map_item_name (getProductName g)) qs st) := by
  unfold processGrocyItem
  rw [hq]
  dsimp only
  rw [hfm]

theorem processGrocyItem_update {env : SyncEnv} {L : String} {og : List OGItem}
    {g : GrocyItem} {st : SyncState} {qv : QVal} {qs : String} {m : OGItem}
    (hq : formatQuantity env.units g = .ok (qv, qs))
    (hfm : env.im.find_matching_item (getProductName g) og = some m) :
    processGrocyItem env L og g st =
      updateExistingItem env m (env.im.map_item_name (getProductName g)) qs L st := by
  unfold processGrocyItem
  rw [hq]
  dsimp only
  rw [hfm]

theorem MatchedNoChange.append_right {env : SyncEnv} {g : GrocyItem} {l : List OGItem}
    (h : MatchedNoChange env g l) (l' : List OGItem) : MatchedNoChange env g (l ++ l') := by
  obtain ⟨qv, qs, m, h1, h2, h3⟩ := h
  exact ⟨qv, qs, m, h1, fm_append_left l' h2, h3⟩

section LoopSteps

variable {env : SyncEnv} {L : String} {S0 : List OGItem} {t0 : SyncTracker}
  {processed : List GrocyItem} {st : SyncState} {g : GrocyItem} {qv : QVal} {qs : String}

/-- Under the snapshot-wide uniqueness of base names, a well-formed
source-snapshot item with the key of a not-yet-processed source item is
the only mirror item carrying that base name. -/
theorem loopinv_unique_base (hinv : LoopInv env L S0 t0 processed st)
    (hS0base : S0.Pairwise (fun a b => a.wf = true → b.wf = true →
      baseOfItem env.im a ≠ baseOfItem env.im b))
    (hkg : itemKey env.im g ∉ processed.map (itemKey env.im))
    {m : OGItem} (hmS0 : m ∈ S0) (hmwf : m.wf = true)
    (hmb : baseOfItem env.im m = itemKey env.im g) :
    ∀ it ∈ st.mirror, it.wf = true → baseOfItem env.im it = itemKey env.im g → it = m := by
  intro it hit hitwf hitb
  rcases hinv.mirror_split it hit with hS0 | ⟨_, _, hbk, _, _⟩
  · by_cases heq : it = m
    · exact heq
    · exfalso
      have hne := (hS0base.forall (symm_base env.im)) hS0 hmS0 heq hitwf hmwf
      rw [hitb, hmb] at hne
      exact hne rfl
  · exact absurd (hitb ▸ hbk) hkg

/-- After a successful create, the loop invariant advances by the item
just processed. -/
theorem loopinv_create
    (hfresh : ∀ n, ∀ it ∈ S0, it.id ≠ some (env.idGen n))
    (hinj : ∀ a b, env.idGen a = env.idGen b → a = b)
    (hinv : LoopInv env L S0 t0 processed st)
    (hkg : itemKey env.im g ∉ processed.map (itemKey env.im))
    (hq : formatQuantity env.units g = .ok (qv, qs))
    (hbase : env.im.extract_base_name
      (mkItemValue env.im (env.im.map_item_name (getProductName g)) qs)
        = itemKey env.im g)
    (hchq : env.im.has_quantity_changed
      (env.im.extract_existing_quantity
        ⟨none, some (mkItemValue env.im (env.im.map_item_name (getProductName g)) qs),
         false⟩) qs = false)
    (hfmS0 : env.im.find_matching_item (getProductName g) S0 = none) :
    LoopInv env L S0 t0 (processed ++ [g])
      ⟨st.mirror ++
          [⟨some (env.idGen st.nextId),
            some (mkItemValue env.im (env.im.map_item_name (getProductName g)) qs),
            false⟩],
       (st.tracker.track_item L (env.idGen st.nextId)
          (env.im.map_item_name (getProductName g))).1,
       st.nextId + 1,
       st.attempts ++
          [.addCall L (mkItemValue env.im (env.im.map_item_name (getProductName g)) qs)],
       some (env.idGen st.nextId)⟩ := by
  refine ⟨?_, ?_, ?_, ?_, ?_⟩
  · -- mirror_split
    intro it hit
    rcases List.mem_append.mp hit with hold | hnew
    · rcases hinv.mirror_split it hold with hS0 | ⟨hwf, hcr, hbk, htr, k, hk, hid⟩
      · exact Or.inl hS0
      · refine Or.inr ⟨hwf, hcr, ?_, ?_, ⟨k, Nat.lt_succ_of_lt hk, hid⟩⟩
        · rw [List.map_append]
          exact List.mem_append_left _ hbk
        · have hne : it.id.getD "" ≠ env.idGen st.nextId := by
            rw [hid]
            intro he
            exact absurd (hinj _ _ he) (Nat.ne_of_lt hk)
          rw [track_preserve_other _ _ _ _ _ hne]
          exact htr
    · rw [List.mem_singleton] at hnew
      subst hnew
      refine Or.inr ⟨rfl, rfl, ?_, ?_, ⟨st.nextId, Nat.lt_succ_self _, rfl⟩⟩
      · rw [List.map_append]
        apply List.mem_append_right
        simp only [List.map_cons, List.map_nil, List.mem_singleton]
        exact hbase
      · exact is_tracked_after_track _ _ _ _
  · -- src_kept
    intro it hS0 hwf hnb
    rw [List.map_append] at hnb
    exact List.mem_append_left _
      (hinv.src_kept it hS0 hwf fun h => hnb (List.mem_append_left _ h))
  · -- ids_distinct
    rw [List.pairwise_append]
    refine ⟨hinv.ids_distinct, by simp, ?_⟩
    intro a ha b hb
    rw [List.mem_singleton] at hb
    subst hb
    intro i hai he
    injection he with he'
    rw [← he'] at hai
    rcases hinv.mirror_split a ha with haS0 | ⟨_, _, _, _, k, hk, hid⟩
    · exact hfresh st.nextId a haS0 hai
    · rw [hid] at hai
      injection hai with h2
      exact absurd (hinj _ _ h2) (Nat.ne_of_lt hk)
  · -- tracker_s0
    rintro i ⟨it, hit, hid⟩
    have hne : i ≠ env.idGen st.nextId := fun he => hfresh st.nextId it hit (by rw [hid, he])
    rw [track_preserve_other _ _ _ _ _ hne]
    exact hinv.tracker_s0 i ⟨it, hit, hid⟩
  · -- matched
    intro g' hg'
    rcases List.mem_append.mp hg' with hp | hg1
    · exact (hinv.matched g' hp).append_right _
    · rw [List.mem_singleton] at hg1
      subst hg1
      refine ⟨qv, qs,
        ⟨some (env.idGen st.nextId),
         some (mkItemValue env.im (env.im.map_item_name (getProductName g')) qs), false⟩,
        hq, ?_, hchq⟩
      have hnone : env.im.find_matching_item (getProductName g') st.mirror = none := by
        apply fm_none_of
        intro it hit hwf hb
        rcases hinv.mirror_split it hit with hS0 | ⟨_, _, hbk, _, _⟩
        · exact fm_none_imp hfmS0 it hS0 hwf hb
        · have hb' : baseOfItem env.im it = itemKey env.im g' := hb
          exact hkg (hb' ▸ hbk)
      dsimp only
      rw [fm_append_of_none hnone]
      simp only [ItemMatcher.find_matching_item]
      have hbase' : pyLower (env.im.map_item_name (getProductName g'))
          = env.im.extract_base_name
              (mkItemValue env.im (env.im.map_item_name (getProductName g')) qs) :=
        hbase.symm
      rw [if_pos hbase']

/-- When the matched snapshot item's quantity is unchanged, the state is
untouched and the invariant advances. -/
theorem loopinv_noop
    (hS0base : S0.Pairwise (fun a b => a.wf = true → b.wf = true →
      baseOfItem env.im a ≠ baseOfItem env.im b))
    (hinv : LoopInv env L S0 t0 processed st)
    (hkg : itemKey env.im g ∉ processed.map (itemKey env.im))
    (hq : formatQuantity env.units g = .ok (qv, qs))
    {m : OGItem}
    (hfmS0 : env.im.find_matching_item (getProductName g) S0 = some m)
    (hch : env.im.has_quantity_changed (env.im.extract_existing_quantity m) qs = false) :
    LoopInv env L S0 t0 (processed ++ [g]) st := by
  obtain ⟨hmS0, hmwf, hmb⟩ := fm_some_spec hfmS0
  have hmb' : baseOfItem env.im m = itemKey env.im g := hmb
  have hmem : m ∈ st.mirror := hinv.src_kept m hmS0 hmwf fun h => hkg (hmb' ▸ h)
  refine ⟨?_, ?_, hinv.ids_distinct, hinv.tracker_s0, ?_⟩
  · intro it hit
    rcases hinv.mirror_split it hit with h | ⟨hwf, hcr, hbk, htr, hex⟩
    · exact Or.inl h
    · exact Or.inr ⟨hwf, hcr,
        by rw [List.map_append]; exact List.mem_append_left _ hbk, htr, hex⟩
  · intro it hS0 hwf hnb
    rw [List.map_append] at hnb
    exact hinv.src_kept it hS0 hwf fun h => hnb (List.mem_append_left _ h)
  · intro g' hg'
    rcases List.mem_append.mp hg' with hp | hg1
    · exact hinv.matched g' hp
    · rw [List.mem_singleton] at hg1
      subst hg1
      refine ⟨qv, qs, m, hq, ?_, hch⟩
      exact fm_unique hmem hmwf hmb
        fun it hit hw hb => loopinv_unique_base hinv hS0base hkg hmS0 hmwf hmb' it hit hw hb

/-- After a successful remove-then-recreate update, the invariant
advances by the item just processed. -/
theorem loopinv_update
    (hS0base : S0.Pairwise (fun a b => a.wf = true → b.wf = true →
      baseOfItem env.im a ≠ baseOfItem env.im b))
    (hfresh : ∀ n, ∀ it ∈ S0, it.id ≠ some (env.idGen n))
    (hinj : ∀ a b, env.idGen a = env.idGen b → a = b)
    (hinv : LoopInv env L S0 t0 processed st)
    (hkg : itemKey env.im g ∉ processed.map (itemKey env.im))
    (hq : formatQuantity env.units g = .ok (qv, qs))
    (hbase : env.im.extract_base_name
      (mkItemValue env.im (env.im.map_item_name (getProductName g)) qs)
        = itemKey env.im g)
    (hchq : env.im.has_quantity_changed
      (env.im.extract_existing_quantity
        ⟨none, some (mkItemValue env.im (env.im.map_item_name (getProductName g)) qs),
         false⟩) qs = false)
    {m : OGItem} {mid : String}
    (hfmS0 : env.im.find_matching_item (getProductName g) S0 = some m)
    (hmid : m.id = some mid) :
    LoopInv env L S0 t0 (processed ++ [g])
      ⟨(st.mirror.filter (fun it => it.id != some mid)) ++
          [⟨some (env.idGen st.nextId),
            some (mkItemValue env.im (env.im.map_item_name (getProductName g)) qs),
            false⟩],
       (st.tracker.track_item L (env.idGen st.nextId)
          (env.im.map_item_name (getProductName g))).1,
       st.nextId + 1,
       (st.attempts ++ [.removeCall L mid]) ++
          [.addCall L (mkItemValue env.im (env.im.map_item_name (getProductName g)) qs)],
       some (env.idGen st.nextId)⟩ := by
  obtain ⟨hmS0, hmwf, hmb⟩ := fm_some_spec hfmS0
  have hmb' : baseOfItem env.im m = itemKey env.im g := hmb
  have hmem : m ∈ st.mirror := hinv.src_kept m hmS0 hmwf fun h => hkg (hmb' ▸ h)
  have huniq := loopinv_unique_base hinv hS0base hkg hmS0 hmwf hmb'
  refine ⟨?_, ?_, ?_, ?_, ?_⟩
  · -- mirror_split
    intro it hit
    rcases List.mem_append.mp hit with hf | hnew
    · have hold : it ∈ st.mirror := (List.mem_filter.mp hf).1
      rcases hinv.mirror_split it hold with h | ⟨hwf, hcr, hbk, htr, k, hk, hid⟩
      · exact Or.inl h
      · refine Or.inr ⟨hwf, hcr, ?_, ?_, ⟨k, Nat.lt_succ_of_lt hk, hid⟩⟩
        · rw [List.map_append]
          exact List.mem_append_left _ hbk
        · have hne : it.id.getD "" ≠ env.idGen st.nextId := by
            rw [hid]
            intro he
            exact absurd (hinj _ _ he) (Nat.ne_of_lt hk)
          rw [track_preserve_other _ _ _ _ _ hne]
          exact htr
    · rw [List.mem_singleton] at hnew
      subst hnew
      refine Or.inr ⟨rfl, rfl, ?_, ?_, ⟨st.nextId, Nat.lt_succ_self _, rfl⟩⟩
      · rw [List.map_append]
        apply List.mem_append_right
        simp only [List.map_cons, List.map_nil, List.mem_singleton]
        exact hbase
      · exact is_tracked_after_track _ _ _ _
  · -- src_kept
    intro it hS0 hwf hnb
    rw [List.map_append] at hnb
    have h1 : baseOfItem env.im it ∉ processed.map (itemKey env.im) :=
      fun h => hnb (List.mem_append_left _ h)
    have hbne : baseOfItem env.im it ≠ itemKey env.im g := by
      intro he
      exact hnb (List.mem_append_right _ (by simp [he]))
    have hm1 : it ∈ st.mirror := hinv.src_kept it hS0 hwf h1
    apply List.mem_append_left
    rw [List.mem_filter]
    refine ⟨hm1, ?_⟩
    have hitne : it ≠ m := fun he => hbne (by rw [he]; exact hmb')
    by_cases hjm : it.id = some mid
    · exact absurd hmid (((hinv.ids_distinct.forall symm_ids) hm1 hmem hitne) mid hjm)
    · rw [bne_iff_ne]
      exact hjm
  · -- ids_distinct
    rw [List.pairwise_append]
    refine ⟨hinv.ids_distinct.sublist (List.filter_sublist _), by simp, ?_⟩
    intro a ha b hb
    rw [List.mem_singleton] at hb
    subst hb
    intro i hai he
    injection he with he'
    rw [← he'] at hai
    have ha' : a ∈ st.mirror := (List.mem_filter.mp ha).1
    rcases hinv.mirror_split a ha' with haS0 | ⟨_, _, _, _, k, hk, hid⟩
    · exact hfresh st.nextId a haS0 hai
    · rw [hid] at hai
      injection hai with h2
      exact absurd (hinj _ _ h2) (Nat.ne_of_lt hk)
  · -- tracker_s0
    rintro i ⟨it, hit, hid⟩
    have hne : i ≠ env.idGen st.nextId := fun he => hfresh st.nextId it hit (by rw [hid, he])
    rw [track_preserve_other _ _ _ _ _ hne]
    exact hinv.tracker_s0 i ⟨it, hit, hid⟩
  · -- matched
    intro g' hg'
    rcases List.mem_append.mp hg' with hp | hg1
    · obtain ⟨a, b, c, h1, h2, h3⟩ := hinv.matched g' hp
      obtain ⟨hcmem, hcwf, hcb⟩ := fm_some_spec h2
      have hcb' : baseOfItem env.im c = itemKey env.im g' := hcb
      have hkne : itemKey env.im g' ≠ itemKey env.im g := by
        intro he
        exact hkg (he ▸ List.mem_map_of_mem (itemKey env.im) hp)
      have hcm : c ≠ m := by
        intro he
        rw [he, hmb'] at hcb'
        exact hkne hcb'.symm
      refine ⟨a, b, c, h1, ?_, h3⟩
      apply fm_append_left
      apply fm_filter h2
      · by_cases hcid : c.id = some mid
        · exact absurd hmid (((hinv.ids_distinct.forall symm_ids) hcmem hmem hcm) mid hcid)
        · rw [bne_iff_ne]
          exact hcid
      · intro it hit hwf hb
        have hb' : baseOfItem env.im it = itemKey env.im g' := hb
        have hitne : it ≠ m := by
          intro he
          rw [he, hmb'] at hb'
          exact hkne hb'.symm
        by_cases hjid : it.id = some mid
        · exact absurd hmid (((hinv.ids_distinct.forall symm_ids) hit hmem hitne) mid hjid)
        · rw [bne_iff_ne]
          exact hjid
    · rw [List.mem_singleton] at hg1
      subst hg1
      refine ⟨qv, qs,
        ⟨some (env.idGen st.nextId),
         some (mkItemValue env.im (env.im.map_item_name (getProductName g')) qs), false⟩,
        hq, ?_, hchq⟩
      have hnone : env.im.find_matching_item (getProductName g')
          (st.mirror.filter (fun it => it.id != some mid)) = none := by
        apply fm_none_of
        intro it hit hwf hb
        have hold := (List.mem_filter.mp hit).1
        have hpit := (List.mem_filter.mp hit).2
        have heq : it = m := huniq it hold hwf hb
        subst heq
        rw [hmid] at hpit
        simp at hpit
      dsimp only
      rw [fm_append_of_none hnone]
      simp only [ItemMatcher.find_matching_item]
      have hbase' : pyLower (env.im.map_item_name (getProductName g'))
          = env.im.extract_base_name
              (mkItemValue env.im (env.im.map_item_name (getProductName g')) qs) :=
        hbase.symm
      rw [if_pos hbase']

end LoopSteps

/-- The per-item loop of one pass, run under the cleanliness hypotheses:
it succeeds and carries the loop invariant through to the end. -/
theorem processItems_loop {env : SyncEnv} {L : String} {S0 : List OGItem}
    {t0 : SyncTracker}
    (hcalls : ∀ n, env.callOk n = true)
    (hS0base : S0.Pairwise (fun a b => a.wf = true → b.wf = true →
      baseOfItem env.im a ≠ baseOfItem env.im b))
    (hfresh : ∀ n, ∀ it ∈ S0, it.id ≠ some (env.idGen n))
    (hinj : ∀ a b, env.idGen a = env.idGen b → a = b) :
    ∀ (rest processed : List GrocyItem) (st : SyncState),
    (∀ g ∈ rest, g.done ≠ 1 → FormatsCleanly env g) →
    (((processed ++ rest.filter nonDone).map (itemKey env.im)).Nodup) →
    LoopInv env L S0 t0 processed st →
    (processItems env L S0 rest st).2 = true ∧
    LoopInv env L S0 t0 (processed ++ rest.filter nonDone)
      (processItems env L S0 rest st).1 := by
  intro rest
  induction rest with
  | nil =>
    intro processed st _ _ hinv
    refine ⟨rfl, ?_⟩
    simpa using hinv
  | cons g rest ih =>
    intro processed st hfmt hnodup hinv
    by_cases hd : g.done = 1
    · have hfg : (g :: rest).filter nonDone = rest.filter nonDone := by
        rw [List.filter_cons_of_neg (by simp [nonDone, hd])]
      rw [hfg] at hnodup ⊢
      rw [processItems, if_pos hd]
      exact ih processed st (fun a ha => hfmt a (List.mem_cons_of_mem _ ha)) hnodup hinv
    · have hfg : (g :: rest).filter nonDone = g :: rest.filter nonDone := by
        rw [List.filter_cons_of_pos (by simp [nonDone, hd])]
      rw [hfg] at hnodup ⊢
      have hassoc : processed ++ g :: rest.filter nonDone
          = (processed ++ [g]) ++ rest.filter nonDone := by
        simp
      rw [hassoc] at hnodup ⊢
      have hkg : itemKey env.im g ∉ processed.map (itemKey env.im) := by
        intro hmem
        have h1 := hnodup
        rw [List.map_append, List.nodup_append] at h1
        have h2 := h1.1
        rw [List.map_append, List.nodup_append] at h2
        exact h2.2.2 hmem (by simp)
      obtain ⟨qv, qs, hq, hbase, hchq⟩ := hfmt g (List.mem_cons_self _ _) hd
      have hfmt' : ∀ a ∈ rest, a.done ≠ 1 → FormatsCleanly env a :=
        fun a ha => hfmt a (List.mem_cons_of_mem _ ha)
      cases hfm : env.im.find_matching_item (getProductName g) S0 with
      | none =>
        rw [processItems, if_neg hd, processGrocyItem_create hq hfm]
        rw [addNewItem_eq hcalls]
        exact ih (processed ++ [g]) _ hfmt' hnodup
          (loopinv_create hfresh hinj hinv hkg hq hbase hchq hfm)
      | some m =>
        by_cases hch : env.im.has_quantity_changed
            (env.im.extract_existing_quantity m) qs = true
        · obtain ⟨_, hmwf, _⟩ := fm_some_spec hfm
          obtain ⟨mid, v, hmid, _⟩ := OGItem.wf_iff.mp hmwf
          rw [processItems, if_neg hd, processGrocyItem_update hq hfm,
            updateExistingItem_eq_changed hcalls hch hmid]
          exact ih (processed ++ [g]) _ hfmt' hnodup
            (loopinv_update hS0base hfresh hinj hinv hkg hq hbase hchq hfm hmid)
        · have hch' : env.im.has_quantity_changed
              (env.im.extract_existing_quantity m) qs = false := by
            simpa using hch
          rw [processItems, if_neg hd, processGrocyItem_update hq hfm,
            updateExistingItem_eq_unchanged hch']
          exact ih (processed ++ [g]) _ hfmt' hnodup
            (loopinv_noop hS0base hinv hkg hq hfm hch')

theorem grocyProductNames_eq (im : ItemMatcher) (gs : List GrocyItem) :
    grocyProductNames im gs = (gs.filter nonDone).map (itemKey im) := by
  unfold grocyProductNames itemKey
  congr 1
  apply List.filter_congr
  intro g _
  by_cases h : g.done = 1 <;> simp [nonDone, h]

/-- Running the deletion phase after the item loop leaves a state whose
mirror still settles every source item without change, and against
which a fresh marking pass marks nothing (unless it would not be
executed anyway). -/
theorem afterDeletions_facts {env : SyncEnv} {L : String} {S0 : List OGItem}
    {t0 : SyncTracker} {gs : List GrocyItem} {st : SyncState}
    (hcalls : ∀ n, env.callOk n = true)
    (hinv : LoopInv env L S0 t0 (gs.filter nonDone) st) :
    (∀ g ∈ gs, g.done ≠ 1 →
      MatchedNoChange env g (processDeletions env L gs S0 st).mirror) ∧
    (env.del.enabled = true → env.del.dry_run = false →
      itemsToRemove env.del (processDeletions env L gs S0 st).tracker L gs
        (processDeletions env L gs S0 st).mirror env.im = []) := by
  have hnames := grocyProductNames_eq env.im gs
  have hmem_nd : ∀ g ∈ gs, g.done ≠ 1 → g ∈ gs.filter nonDone := by
    intro g hg hd
    rw [List.mem_filter]
    exact ⟨hg, by simp [nonDone, hd]⟩
  by_cases hen : env.del.enabled = true
  · by_cases hdry : env.del.dry_run = true
    · have hst : processDeletions env L gs S0 st = st := by
        rw [processDeletions, if_pos hen, runDeletions_dry hdry]
      rw [hst]
      refine ⟨fun g hg hd => hinv.matched g (hmem_nd g hg hd), ?_⟩
      intro _ hdf
      rw [hdf] at hdry
      exact absurd hdry (by simp)
    · have hdry' : env.del.dry_run = false := by simpa using hdry
      have hst : processDeletions env L gs S0 st
          = runDeletions env L (itemsToRemove env.del st.tracker L gs S0 env.im) st := by
        rw [processDeletions, if_pos hen]
      -- facts about each marked item
      have hmarked : ∀ m ∈ itemsToRemove env.del st.tracker L gs S0 env.im,
          m ∈ st.mirror ∧ m.wf = true ∧ (∃ i, m.id = some i) ∧
          baseOfItem env.im m ∉ grocyProductNames env.im gs := by
        intro m hm
        rw [itemsToRemove, List.mem_filter] at hm
        obtain ⟨hS0m, hmk⟩ := hm
        obtain ⟨hwf, hnb⟩ := deletionMarks_spec hmk
        obtain ⟨i, v, hi, _⟩ := OGItem.wf_iff.mp hwf
        refine ⟨?_, hwf, ⟨i, hi⟩, hnb⟩
        exact hinv.src_kept m hS0m hwf (by rw [← hnames]; exact hnb)
      have hids : ∀ m ∈ itemsToRemove env.del st.tracker L gs S0 env.im,
          m.id.isSome = true := by
        intro m hm
        obtain ⟨_, _, ⟨i, hi⟩, _⟩ := hmarked m hm
        rw [hi]
        rfl
      obtain ⟨hmir, htrk⟩ := runDeletions_live hcalls hdry' _ st hids
      -- any mirror item whose base is a live source name survives every removal
      have hpnames : ∀ it ∈ st.mirror,
          baseOfItem env.im it ∈ grocyProductNames env.im gs →
          ((itemsToRemove env.del st.tracker L gs S0 env.im).all
            (fun m => it.id != m.id)) = true := by
        intro it hit hb
        rw [List.all_eq_true]
        intro m hm
        obtain ⟨hmmem, _, ⟨i, hi⟩, hmnb⟩ := hmarked m hm
        have hitne : it ≠ m := fun he => hmnb (he ▸ hb)
        cases hjd : it.id with
        | none => rw [hi]; rfl
        | some j =>
          rw [hi, bne_iff_ne]
          intro he
          injection he with he'
          subst he'
          exact ((hinv.ids_distinct.forall symm_ids) hit hmmem hitne) j hjd hi
      rw [hst]
      constructor
      · intro g hg hd
        obtain ⟨qv, qs, c, h1, h2, h3⟩ := hinv.matched g (hmem_nd g hg hd)
        obtain ⟨hcmem, hcwf, hcb⟩ := fm_some_spec h2
        have hcnames : baseOfItem env.im c ∈ grocyProductNames env.im gs := by
          rw [hnames, hcb]
          exact List.mem_map_of_mem (itemKey env.im) (hmem_nd g hg hd)
        refine ⟨qv, qs, c, h1, ?_, h3⟩
        rw [hmir]
        exact fm_filter h2 (hpnames c hcmem hcnames)
          (fun it hit hwf hb => hpnames it hit
            (by rw [hnames, hb]
                exact List.mem_map_of_mem (itemKey env.im) (hmem_nd g hg hd)))
      · intro _ _
        rw [itemsToRemove, List.filter_eq_nil_iff]
        intro it hit
        rw [hmir, List.mem_filter] at hit
        obtain ⟨hit0, hpit⟩ := hit
        rw [Bool.not_eq_true]
        rcases hinv.mirror_split it hit0 with hS0it | ⟨_, _, hbk, _, _⟩
        · by_cases hmk : deletionMarks env.del st.tracker L
              (grocyProductNames env.im gs) env.im it = true
          · exfalso
            have hitm : it ∈ itemsToRemove env.del st.tracker L gs S0 env.im := by
              rw [itemsToRemove, List.mem_filter]
              exact ⟨hS0it, hmk⟩
            obtain ⟨_, _, ⟨i, hi⟩, _⟩ := hmarked it hitm
            have := (List.all_eq_true.mp hpit) it hitm
            rw [hi] at this
            simp at this
          · exact deletionMarks_mono_tracker htrk (by simpa using hmk)
        · apply deletionMarks_false_of_base_mem
          rw [hnames]
          exact hbk
  · have hst : processDeletions env L gs S0 st = st := by
      rw [processDeletions, if_neg hen]
    rw [hst]
    exact ⟨fun g hg hd => hinv.matched g (hmem_nd g hg hd),
      fun he _ => absurd he hen⟩

/-! ## Claims -/

/-- C10: a sync pass whose source snapshot is empty returns success
immediately and leaves the whole state — mirror items, tracking ledger
and attempted-call log — untouched; in particular the deletion policy
never runs and no mirror item is removed. -/
theorem c10_empty_source_no_work (env : SyncEnv) (og_list : Option String)
    (st : SyncState) : sync_list env [] og_list st = (st, true) := by
  simp [sync_list]

/-- C6: has_quantity_changed returns false exactly when the two
quantity strings agree after lower-casing and removing every space
character (a missing existing quantity counting as the empty string),
and the spec's two examples evaluate as stated. -/
theorem c6_quantity_change_rule (im : ItemMatcher) (a : Option String) (b : String) :
    (im.has_quantity_changed a b = false ↔ normQuantity a = normQuantity (some b)) ∧
    (ItemMatcher.mk [] " : ").has_quantity_changed (some "1 Gallon") "1gallon" = false ∧
    (ItemMatcher.mk [] " : ").has_quantity_changed (some "1 gallon") "2 gallons" = true ∧
    (ItemMatcher.mk [] " : ").has_quantity_changed none "" = false := by
  refine ⟨?_, by decide, by decide, by decide⟩
  have hnorm : ∀ q, pyNormalize q = normQuantity q := by
    intro q
    cases q with
    | none => rfl
    | some s =>
      by_cases hs : s = ""
      · subst hs; rfl
      · simp [pyNormalize, normQuantity, hs]
  unfold ItemMatcher.has_quantity_changed
  by_cases hab : a = some b
  · rw [if_neg (not_not_intro hab)]
    subst hab
    simp
  · rw [if_pos hab, hnorm, hnorm]
    split
    · next h => simp [h]
    · next h => simp [h]

/-- C9: tracking an already-tracked id is a no-op with no persistence
write; a persistence write happens exactly when the in-memory ledger
changes; and after track_item the id is tracked. -/
theorem c9_track_idempotent (t : SyncTracker) (L I name : String) :
    (t.is_tracked_item L I = true → t.track_item L I name = (t, false)) ∧
    ((t.track_item L I name).2 = true ↔ (t.track_item L I name).1 ≠ t) ∧
    (t.track_item L I name).1.is_tracked_item L I = true := by
  cases hg : getList t.lists L with
  | some ids =>
    by_cases hc : ids.contains I = true
    · have hm : I ∈ ids := by simpa using hc
      have hres : t.track_item L I name = (t, false) := by
        simp [SyncTracker.track_item, hg, hm]
      have htrk : t.is_tracked_item L I = true := by
        simp [SyncTracker.is_tracked_item, hg, hm]
      rw [hres]
      exact ⟨fun _ => rfl, by simp, htrk⟩
    · have hm : I ∉ ids := by simpa using hc
      have hres : t.track_item L I name = (⟨setList t.lists L (ids ++ [I])⟩, true) := by
        simp [SyncTracker.track_item, hg, hm]
      have hnew : getList (setList t.lists L (ids ++ [I])) L = some (ids ++ [I]) :=
        getList_setList_self t.lists L (ids ++ [I])
      rw [hres]
      refine ⟨?_, ?_, ?_⟩
      · intro htr
        exact absurd (by simpa [SyncTracker.is_tracked_item, hg] using htr) hc
      · refine ⟨fun _ heq => ?_, fun _ => rfl⟩
        have h2 := congrArg (fun tr : SyncTracker => getList tr.lists L) heq
        simp only [hnew, hg, Option.some.injEq] at h2
        simp at h2
      · simp [SyncTracker.is_tracked_item, hnew]
  | none =>
    have hg2 : getList (t.lists ++ [(L, [])]) L = some [] :=
      getList_append_absent t.lists L [] hg
    have hres : t.track_item L I name
        = (⟨setList (t.lists ++ [(L, [])]) L [I]⟩, true) := by
      simp [SyncTracker.track_item, hg, hg2]
    have hnew : getList (setList (t.lists ++ [(L, [])]) L [I]) L = some [I] :=
      getList_setList_self _ L _
    rw [hres]
    refine ⟨?_, ?_, ?_⟩
    · intro htr
      rw [SyncTracker.is_tracked_item, hg] at htr
      simp at htr
    · refine ⟨fun _ heq => ?_, fun _ => rfl⟩
      have h2 := congrArg (fun tr : SyncTracker => getList tr.lists L) heq
      simp only [hnew, hg] at h2
      exact Option.noConfusion h2
    · simp [SyncTracker.is_tracked_item, hnew]

/-- C3 evidence: _find_conversion_factor raises (ZeroDivisionError,
modelled Except.error) when only the inverse entry exists and its
stored factor is zero, and returns factor 1 — not "no conversion
available" — when the inverse entry's factor key is missing; only the
genuinely-absent case yields none. -/
theorem c3_zero_inverse_factor_raises :
    findConversionFactor ⟨"Water", some "8", some "5", some [⟨some "8", some "5", some 0⟩]⟩
      (some "5") (some "8") = .error () ∧
    findConversionFactor ⟨"Water", some "8", some "5", some [⟨some "8", some "5", none⟩]⟩
      (some "5") (some "8") = .ok (some 1) ∧
    findConversionFactor ⟨"Water", some "8", some "5", some []⟩ (some "5") (some "8")
      = .ok none := by
  have h1 : ((1 : ℚ)/1) = 1 := by norm_num
  exact ⟨rfl, by simp [findConversionFactor, List.find?, h1], rfl⟩

/-- C7: when a CASE-2 unit conversion applies, format_quantity yields
exactly roundConvert of amount times factor, where roundConvert first
rounds to two decimals and then collapses to the nearest integer when
within 0.05 of it; the result never differs from amount times factor by
more than 1/200 + 1/20 = 11/200. -/
theorem c7_converted_rounding (units : List (String × QuantityUnit)) (g : GrocyItem)
    (product : GrocyProduct) (f q : ℚ)
    (hp : g.product_details = some product)
    (hne : g.qu_id ≠ product.qu_id_purchase)
    (hcf : findConversionFactor product g.qu_id product.qu_id_purchase = .ok (some f))
    (hf : f ≠ 0) (ha : g.amount = some q) :
    (∃ s, formatQuantity units g = .ok (QVal.num (roundConvert (q * f)), s)) ∧
    roundConvert (q * f) =
      (if |round2 (q * f) - ((round (round2 (q * f)) : ℤ) : ℚ)| < 1 / 20
       then ((round (round2 (q * f)) : ℤ) : ℚ) else round2 (q * f)) ∧
    |roundConvert (q * f) - q * f| ≤ 11 / 200 := by
  refine ⟨?_, rfl, abs_roundConvert_sub_le (q * f)⟩
  unfold formatQuantity
  rw [hp, ha]
  dsimp only
  have hguard1 : ¬(g.qu_id = product.qu_id_purchase ∧
      product.qu_id_purchase ≠ product.qu_id_stock) := fun h => hne h.1
  rw [if_neg hguard1, if_pos hne, hcf]
  dsimp only
  rw [if_pos hf]
  exact ⟨(finishQuantity (QVal.num (roundConvert (q * f))) _).2, by rw [← finishQuantity_eq]⟩

/-- C7 witness: a concrete CASE-2 item with amount 3 and factor 1/2. -/
theorem c7_converted_rounding_witness :
    (⟨some 3, some "5",
       some ⟨"Water", some "8", none, some [⟨some "5", some "8", some (1/2)⟩]⟩,
       none, 0⟩ : GrocyItem).product_details
        = some ⟨"Water", some "8", none, some [⟨some "5", some "8", some (1/2)⟩]⟩ ∧
    ((1 : ℚ)/2 ≠ 0) ∧
    ((∃ s, formatQuantity []
        ⟨some 3, some "5",
         some ⟨"Water", some "8", none, some [⟨some "5", some "8", some (1/2)⟩]⟩,
         none, 0⟩ = .ok (QVal.num (roundConvert (3 * (1/2))), s)) ∧
     roundConvert (3 * (1/2)) =
       (if |round2 (3 * (1/2)) - ((round (round2 (3 * (1/2))) : ℤ) : ℚ)| < 1 / 20
        then ((round (round2 (3 * (1/2))) : ℤ) : ℚ) else round2 (3 * (1/2))) ∧
     |roundConvert (3 * (1/2)) - 3 * (1/2)| ≤ 11 / 200) :=
  ⟨rfl, by norm_num,
   c7_converted_rounding []
     ⟨some 3, some "5",
      some ⟨"Water", some "8", none, some [⟨some "5", some "8", some (1/2)⟩]⟩, none, 0⟩
     ⟨"Water", some "8", none, some [⟨some "5", some "8", some (1/2)⟩]⟩
     (1/2) 3 rfl (by decide) rfl (by norm_num) rfl⟩

/-- C5 counterexample: with separator "A", the value "xAy" contains the
separator, yet extract_base_name returns the whole folded value "xay"
rather than the case-folded text "x" before the first separator
occurrence: the code searches for the separator inside the lower-cased
value, where "A" no longer occurs. -/
theorem c5_counterexample :
    strContains "xAy" "A" = true ∧
    (ItemMatcher.mk [] "A").extract_base_name "xAy" = "xay" ∧
    ("xay" : String) ≠ "x" := ⟨rfl, by decide, by decide⟩

/-- C5 amended: for a nonempty separator, extract_base_name equals the
trimmed text before the first separator occurrence in the LOWER-CASED
value — the occurrence must exist there, not merely in the raw value —
and extract_existing_quantity equals the text after the first separator
occurrence in the raw value; each split is characterized as the
decomposition around the separator with the shortest prefix. -/
theorem c5_amended_extraction (maps : List (String × String)) (sep v : String)
    (oid : Option String) (cr : Bool) (hne : sep ≠ "")
    (hcont : strContains (pyLower v) sep = true) :
    (∃ pre post : String, pyLower v = pre ++ sep ++ post ∧
       (∀ pre' post' : String, pyLower v = pre' ++ sep ++ post' →
         pre.length ≤ pre'.length) ∧
       (ItemMatcher.mk maps sep).extract_base_name v = pyStrip pre) ∧
    (strContains v sep = true →
      ∃ pre post : String, v = pre ++ sep ++ post ∧
        (∀ pre' post' : String, v = pre' ++ sep ++ post' →
          pre.length ≤ pre'.length) ∧
        (ItemMatcher.mk maps sep).extract_existing_quantity ⟨oid, some v, cr⟩
          = some post) := by
  constructor
  · obtain ⟨pre, post, heq, hmin, hbefore, _⟩ := splitFirst_spec sep (pyLower v) hne hcont
    refine ⟨pre, post, heq, hmin, ?_⟩
    unfold ItemMatcher.extract_base_name
    dsimp only
    rw [hcont]
    simp only [if_true]
    rw [hbefore]
  · intro hcv
    obtain ⟨pre, post, heq, hmin, _, hafter⟩ := splitFirst_spec sep v hne hcv
    refine ⟨pre, post, heq, hmin, ?_⟩
    unfold ItemMatcher.extract_existing_quantity
    dsimp only
    rw [hcv]
    simp only [if_true]
    rw [hafter]

/-- C5 amended witness: separator " : " on value "Water : 3 Bottles". -/
theorem c5_amended_extraction_witness :
    (" : " : String) ≠ "" ∧
    strContains (pyLower "Water : 3 Bottles") " : " = true ∧
    ((∃ pre post : String, pyLower "Water : 3 Bottles" = pre ++ " : " ++ post ∧
        (∀ pre' post' : String, pyLower "Water : 3 Bottles" = pre' ++ " : " ++ post' →
          pre.length ≤ pre'.length) ∧
        (ItemMatcher.mk [] " : ").extract_base_name "Water : 3 Bottles" = pyStrip pre) ∧
     (strContains "Water : 3 Bottles" " : " = true →
       ∃ pre post : String, "Water : 3 Bottles" = pre ++ " : " ++ post ∧
         (∀ pre' post' : String, "Water : 3 Bottles" = pre' ++ " : " ++ post' →
           pre.length ≤ pre'.length) ∧
         (ItemMatcher.mk [] " : ").extract_existing_quantity
           ⟨some "i1", some "Water : 3 Bottles", false⟩ = some post)) :=
  ⟨by decide, by decide,
   c5_amended_extraction [] " : " "Water : 3 Bottles" (some "i1") false
     (by decide) (by decide)⟩

/-- C8 counterexample: product with the single conversion entry
(A, B, 1/100).  Converting amount 3 from A to B collapses 0.03 to 0 (it
is within 0.05 of the integer 0), and converting back with the inverse
factor 100 returns 0, not 3: the round trip is off by 3, far beyond the
per-step rounding-plus-collapse tolerance (at most 11/100 over the two
steps). -/
theorem c8_roundtrip_counterexample :
    findConversionFactor ⟨"Widget", none, none, some [⟨some "A", some "B", some (1/100)⟩]⟩
      (some "A") (some "B") = .ok (some (1/100)) ∧
    findConversionFactor ⟨"Widget", none, none, some [⟨some "A", some "B", some (1/100)⟩]⟩
      (some "B") (some "A") = .ok (some 100) ∧
    roundConvert (roundConvert (3 * (1/100)) * 100) = 0 ∧
    ¬(|roundConvert (roundConvert (3 * (1/100)) * 100) - 3| ≤ 11/100) := by
  have hstep : roundConvert (3 * (1/100)) = 0 := by
    unfold roundConvert round2
    norm_num [round_eq]
    rw [abs_of_nonneg (by norm_num : (0:ℚ) ≤ 3 / 100)]
    norm_num
  have hzero : roundConvert 0 = 0 := by
    unfold roundConvert round2
    norm_num [round_eq]
  have hne100 : ((1:ℚ)/100) ≠ 0 := by norm_num
  have hinv : (1:ℚ) / (1/100) = 100 := by norm_num
  refine ⟨rfl, ?_, ?_, ?_⟩
  · simp [findConversionFactor, List.find?, hne100, hinv]
  · rw [hstep]
    norm_num [hzero]
  · rw [hstep]
    norm_num [hzero]

/-- C8 amended: with a conversion entry (A, B, f) for positive f stored
in only one direction, the lookup finds f forward and the reciprocal 1/f
backward, and the round trip A→B→A returns the original value with
error at most 11/200 for the forward step plus 11/200 scaled by 1/f for
the backward step — the tolerance degrades by the factor 1/f and is NOT
a fixed ±0.05-per-step bound (see the counterexample). -/
theorem c8_roundtrip_error_bound (A B : Option String) (p : GrocyProduct) (f x : ℚ)
    (hconv : p.quantity_unit_conversions = some [⟨A, B, some f⟩])
    (hAB : A ≠ B) (hf : 0 < f) :
    findConversionFactor p A B = .ok (some f) ∧
    findConversionFactor p B A = .ok (some (1 / f)) ∧
    |roundConvert (roundConvert (x * f) * (1 / f)) - x| ≤ 11 / 200 * (1 + 1 / f) := by
  have hfne : f ≠ 0 := ne_of_gt hf
  refine ⟨?_, ?_, ?_⟩
  · simp [findConversionFactor, hconv, List.find?]
  · have hab1 : (A == B) = false := beq_eq_false_iff_ne.mpr hAB
    have hab2 : (B == A) = false := beq_eq_false_iff_ne.mpr (Ne.symm hAB)
    simp [findConversionFactor, hconv, List.find?, hab1, hab2, hfne]
  · have h1 := abs_roundConvert_sub_le (roundConvert (x * f) * (1 / f))
    have h2 := abs_roundConvert_sub_le (x * f)
    have hfpos : (0:ℚ) < 1 / f := by positivity
    have htri : |roundConvert (roundConvert (x * f) * (1 / f)) - x| ≤
        |roundConvert (roundConvert (x * f) * (1 / f)) - roundConvert (x * f) * (1 / f)| +
        |roundConvert (x * f) * (1 / f) - x| := abs_sub_le _ _ _
    have hxf : x * f * (1 / f) = x := by field_simp
    have heq : roundConvert (x * f) * (1 / f) - x = (roundConvert (x * f) - x * f) * (1 / f) := by
      rw [sub_mul, hxf]
    have h3 : |roundConvert (x * f) * (1 / f) - x| ≤ 11 / 200 * (1 / f) := by
      rw [heq, abs_mul, abs_of_pos hfpos]
      exact mul_le_mul_of_nonneg_right h2 (le_of_lt hfpos)
    have hexp : (11:ℚ) / 200 * (1 + 1 / f) = 11 / 200 + 11 / 200 * (1 / f) := by ring
    rw [hexp]
    linarith

/-- C8 amended witness: entry (A, B, 2) and amount 3. -/
theorem c8_roundtrip_error_bound_witness :
    (⟨"Widget", none, none, some [⟨some "A", some "B", some 2⟩]⟩
        : GrocyProduct).quantity_unit_conversions
      = some [⟨some "A", some "B", some 2⟩] ∧
    (some "A" : Option String) ≠ some "B" ∧ (0:ℚ) < 2 ∧
    (findConversionFactor ⟨"Widget", none, none, some [⟨some "A", some "B", some 2⟩]⟩
        (some "A") (some "B") = .ok (some 2) ∧
     findConversionFactor ⟨"Widget", none, none, some [⟨some "A", some "B", some 2⟩]⟩
        (some "B") (some "A") = .ok (some (1 / 2)) ∧
     |roundConvert (roundConvert (3 * 2) * (1 / 2)) - 3| ≤ 11 / 200 * (1 + 1 / 2)) :=
  ⟨rfl, by decide, by norm_num,
   c8_roundtrip_error_bound (some "A") (some "B")
     ⟨"Widget", none, none, some [⟨some "A", some "B", some 2⟩]⟩ 2 3
     rfl (by decide) (by norm_num)⟩

/-- C1: a mirror item is marked for removal exactly when it carries both
an id and a value, is not excluded by the crossed-off guard, is not
excluded by the preserve-manual-items guard, and its extracted base name
is absent from the lower-cased mapped names of the non-done source
items; on the spec's concrete guard scenario the computed removal set is
empty. -/
theorem c1_deletion_marking :
    (∀ (cfg : DeletionConfig) (tracker : SyncTracker) (og_list_id : String)
       (grocy_items : List GrocyItem) (og_items : List OGItem) (im : ItemMatcher)
       (x : OGItem),
       x ∈ itemsToRemove cfg tracker og_list_id grocy_items og_items im ↔
         (x ∈ og_items ∧ ∃ iid v, x.id = some iid ∧ x.value = some v ∧
           ¬(cfg.respect_crossed_off = true ∧ x.crossedOff = true) ∧
           ¬(cfg.preserve_manual_items = true ∧
             tracker.is_tracked_item og_list_id iid = false) ∧
           ¬(im.extract_base_name v ∈ grocyProductNames im grocy_items))) ∧
    itemsToRemove ⟨true, false, true, false⟩ ⟨[]⟩ "L"
      [⟨some 3, some "8", some ⟨"Water", some "8", some "8", none⟩, none, 0⟩]
      [⟨some "i1", some "Water : 3 Bottles", false⟩,
       ⟨some "i2", some "Eggs : 12", true⟩] ⟨[], " : "⟩ = [] := by
  constructor
  · intro cfg tracker og_list_id grocy_items og_items im x
    rw [itemsToRemove, List.mem_filter]
    apply and_congr_right
    intro _
    rcases x with ⟨xid, xval, xcr⟩
    cases xid with
    | none => simp [deletionMarks]
    | some iid =>
      cases xval with
      | none => simp [deletionMarks]
      | some v =>
        simp only [deletionMarks]
        split_ifs with h1 h2
        · rw [Bool.and_eq_true] at h1
          simp [h1.1, h1.2]
        · rw [Bool.and_eq_true, Bool.not_eq_true'] at h2
          simp [h2.1, h2.2]
        · rw [Bool.and_eq_true] at h1 h2
          simp only [Bool.not_eq_true'] at h2
          constructor
          · intro hb
            refine ⟨iid, v, rfl, rfl, h1, h2, ?_⟩
            simpa using hb
          · rintro ⟨iid', v', hi, hv, _, _, hmem⟩
            cases hi
            cases hv
            simpa using hmem
  · decide

/-- C4: a changed quantity is handled as remove-old-entry then
create-replacement — the attempted-call log records the remove call
before the add call and contains nothing else for this item — and the
ledger records the new id only after a successful create: on a failed
remove no create is attempted and state, mirror and ledger are
otherwise unchanged; on a successful remove with a failed create no id
is recorded in the ledger; on an unchanged quantity no mirror call is
made and the whole state is returned untouched. -/
theorem c4_update_two_step (env : SyncEnv) (m : OGItem) (nm qs L : String)
    (st : SyncState) (mid : String) (hmid : m.id = some mid) :
    (env.im.has_quantity_changed (env.im.extract_existing_quantity m) qs = false →
      updateExistingItem env m nm qs L st = .ok st) ∧
    (env.im.has_quantity_changed (env.im.extract_existing_quantity m) qs = true →
      (env.callOk st.attempts.length = false →
        updateExistingItem env m nm qs L st
          = .ok { st with attempts := st.attempts ++ [.removeCall L mid] }) ∧
      (env.callOk st.attempts.length = true →
        env.callOk (st.attempts ++ [MirrorCall.removeCall L mid]).length = false →
        updateExistingItem env m nm qs L st
          = (Except.ok (⟨st.mirror.filter (fun it => it.id != some mid), st.tracker,
                 st.nextId,
                 (st.attempts ++ [.removeCall L mid]) ++
                    [.addCall L (mkItemValue env.im nm qs)],
                 st.lastAdded⟩ : SyncState) : Except Unit SyncState)) ∧
      (env.callOk st.attempts.length = true →
        env.callOk (st.attempts ++ [MirrorCall.removeCall L mid]).length = true →
        updateExistingItem env m nm qs L st
          = (Except.ok (⟨(st.mirror.filter (fun it => it.id != some mid)) ++
                   [⟨some (env.idGen st.nextId), some (mkItemValue env.im nm qs), false⟩],
                 (st.tracker.track_item L (env.idGen st.nextId) nm).1,
                 st.nextId + 1,
                 (st.attempts ++ [.removeCall L mid]) ++
                    [.addCall L (mkItemValue env.im nm qs)],
                 some (env.idGen st.nextId)⟩ : SyncState) : Except Unit SyncState))) := by
  refine ⟨fun hch => updateExistingItem_eq_unchanged hch, fun hch => ⟨?_, ?_, ?_⟩⟩
  · intro hfail
    unfold updateExistingItem
    dsimp only
    rw [if_pos hch, hmid]
    dsimp only
    rw [clientRemove_fail hfail]
    dsimp only
    rw [if_neg (by simp)]
  · intro hok1 hfail2
    unfold updateExistingItem
    dsimp only
    rw [if_pos hch, hmid]
    dsimp only
    rw [clientRemove_eq hok1]
    dsimp only
    rw [if_pos rfl]
    rw [clientAdd_fail hfail2]
    dsimp only
    rw [if_neg (by simp)]
  · intro hok1 hok2
    unfold updateExistingItem
    dsimp only
    rw [if_pos hch, hmid]
    dsimp only
    rw [clientRemove_eq hok1]
    dsimp only
    rw [if_pos rfl]
    rw [clientAdd_eq hok2]
    dsimp only
    rw [if_pos rfl]

/-- C4 witness: a changed quantity with both calls succeeding performs
the remove and then the create, and tracks the new id. -/
theorem c4_update_two_step_witness :
    demoEnv.im.has_quantity_changed
        (demoEnv.im.extract_existing_quantity ⟨some "m1", some "Water : 2", false⟩)
        "3 Bottles" = true ∧
    updateExistingItem demoEnv ⟨some "m1", some "Water : 2", false⟩ "Water" "3 Bottles"
        "L" ⟨[⟨some "m1", some "Water : 2", false⟩], ⟨[]⟩, 0, [], none⟩
      = .ok ⟨[⟨some "i", some "Water : 3 Bottles", false⟩],
             ⟨[("L", ["i"])]⟩, 1,
             [.removeCall "L" "m1", .addCall "L" "Water : 3 Bottles"],
             some "i"⟩ := by
  constructor
  · decide
  · rw [((c4_update_two_step demoEnv ⟨some "m1", some "Water : 2", false⟩ "Water"
      "3 Bottles" "L" ⟨[⟨some "m1", some "Water : 2", false⟩], ⟨[]⟩, 0, [], none⟩
      "m1" rfl).2 (by decide)).2.2 rfl rfl]
    rfl

/-- C2 counterexample: with the default separator and a source item
whose name itself contains the separator, the value created in the
first pass ("A : B : 3") parses back to the base name "a", which does
not match the item's key "a : b", so the second pass — with every
mirror call succeeding and no source-side change — performs another
creation instead of zero mirror calls. -/
theorem c2_counterexample :
    (sync_list sepEnv [sepItem] (some "L") ⟨[], ⟨[]⟩, 0, [], none⟩).2 = true ∧
    (sync_list sepEnv [sepItem] (some "L")
        ⟨[], ⟨[]⟩, 0, [], none⟩).1.attempts = [.addCall "L" "A : B : 3"] ∧
    (sync_list sepEnv [sepItem] (some "L")
        (sync_list sepEnv [sepItem] (some "L") ⟨[], ⟨[]⟩, 0, [], none⟩).1).1.attempts
      = [.addCall "L" "A : B : 3", .addCall "L" "A : B : 3"] := by
  decide

/-- C2 amended: a second pass immediately after a first pass over the
same source snapshot performs zero creations, zero updates and zero
removals — it returns the first pass's state unchanged — provided every
mirror call succeeds, every non-done source item's quantity formats
without raising and its assembled mirror value parses back to its own
key with an unchanged quantity, the non-done source keys are pairwise
distinct, the well-formed initial mirror items have pairwise-distinct
base names and pairwise-distinct ids, and the ids the mirror assigns to
created items are fresh and injective.  (Without these provisos the
claim fails: see the counterexample.) -/
theorem c2_second_pass_identity (env : SyncEnv) (L : String) (gs : List GrocyItem)
    (st0 : SyncState)
    (hcalls : ∀ n, env.callOk n = true)
    (hfmtall : ∀ g ∈ gs, g.done ≠ 1 → FormatsCleanly env g)
    (hnodup : ((gs.filter nonDone).map (itemKey env.im)).Nodup)
    (hS0base : st0.mirror.Pairwise (fun a b => a.wf = true → b.wf = true →
      baseOfItem env.im a ≠ baseOfItem env.im b))
    (hS0ids : st0.mirror.Pairwise (fun a b => ∀ i, a.id = some i → b.id ≠ some i))
    (hfresh : ∀ n, ∀ it ∈ st0.mirror, it.id ≠ some (env.idGen n))
    (hinj : ∀ a b, env.idGen a = env.idGen b → a = b) :
    (sync_list env gs (some L) st0).2 = true ∧
    sync_list env gs (some L) ((sync_list env gs (some L) st0).1)
      = ((sync_list env gs (some L) st0).1, true) := by
  by_cases hempty : gs.isEmpty = true
  · have h0 : ∀ st : SyncState, sync_list env gs (some L) st = (st, true) := by
      intro st
      rw [sync_list, if_pos hempty]
    refine ⟨by rw [h0], ?_⟩
    rw [h0, h0]
  · have hinv0 : LoopInv env L st0.mirror st0.tracker [] st0 :=
      ⟨fun it hit => Or.inl hit, fun it h _ _ => h, hS0ids, fun i _ => rfl,
       by intro g hg; simp at hg⟩
    obtain ⟨hok, hinvF⟩ := processItems_loop hcalls hS0base hfresh hinj gs [] st0
      hfmtall (by simpa using hnodup) hinv0
    rw [List.nil_append] at hinvF
    obtain ⟨hm1, hdel1⟩ := afterDeletions_facts hcalls hinvF
    have hpass1 : sync_list env gs (some L) st0
        = (processDeletions env L gs st0.mirror
            (processItems env L st0.mirror gs st0).1, true) := by
      rw [sync_list, if_neg hempty]
      dsimp only
      rw [if_pos hok]
    rw [hpass1]
    exact ⟨rfl, sync_list_stable gs _ hm1 hdel1⟩

/-- C2 amended witness: a single Water item against an empty mirror,
deletion enabled live. -/
theorem c2_second_pass_identity_witness :
    (sync_list demoEnv [demoItem] (some "L") demoState).2 = true ∧
    sync_list demoEnv [demoItem] (some "L")
        ((sync_list demoEnv [demoItem] (some "L") demoState).1)
      = ((sync_list demoEnv [demoItem] (some "L") demoState).1, true) :=
  c2_second_pass_identity demoEnv "L" [demoItem] demoState
    (fun _ => rfl)
    (by
      intro g hg hd
      rw [List.mem_singleton] at hg
      subst hg
      exact ⟨QVal.num 3, "3 Bottles", rfl, by decide, by decide⟩)
    (by decide)
    List.Pairwise.nil
    List.Pairwise.nil
    (by intro n it hit; simp [demoState] at hit)
    (by
      intro a b h
      simp only [demoEnv] at h
      have h2 := congrArg (fun s : String => s.data.length) h
      simpa using h2)

end GrocySync
